import Mathlib

/-!
Pod overrides and automount secrets of the DevWorkspace operator.

A shallow embedding of

* `pkg/library/overrides/pods.go`: `NeedsPodOverrides`, `ApplyPodOverrides`, `getPodOverrides`;
* `pkg/provision/automount/secret.go`: `getDevWorkspaceSecrets` and its helpers.

Conventions of the embedding:

* a Go slice is a `List`; the nil slice and the empty slice are both `[]`;
* a Go `string`-keyed map read by key is an association list read with `List.lookup`;
* a Go `error` is its message (a `String`); `fmt.Errorf("ctx: %w", err)` is `"ctx: " ++ err`;
* a Go result pair `(value, error)` is a Lean pair whose components are `Option`s
  (`none` is Go's `nil`), so that what is returned next to an error stays observable;
* `DeepCopy` is the identity (values are immutable);
* library code the two files call (JSON codec, strategic merge patch, attribute decoding,
  the cluster client) is taken as a parameter.
-/

set_option autoImplicit false

namespace DWO

/-! ## Data model -/

/-- A `corev1.Container`, reduced to its name and image. -/
structure Container where
  Name : String
  Image : String
  deriving DecidableEq, Repr

/-- A `corev1.SecretVolumeSource`. -/
structure SecretVolumeSource where
  SecretName : String
  DefaultMode : Option Nat
  deriving DecidableEq, Repr

/-- A `corev1.Volume`; the only volume source kept is `Secret`. -/
structure Volume where
  Name : String
  Secret : Option SecretVolumeSource
  deriving DecidableEq, Repr

/-- A `corev1.VolumeMount`. -/
structure VolumeMount where
  Name : String
  ReadOnly : Bool
  MountPath : String
  SubPath : String
  deriving DecidableEq, Repr

/-- A `corev1.EnvFromSource`; `SecretRef` holds the name of the referenced secret. -/
structure EnvFromSource where
  SecretRef : Option String
  deriving DecidableEq, Repr

/-- A `corev1.PodSpec`: the three protected lists and three scalar fields
(the empty string is Go's zero value, "not set"). -/
structure PodSpec where
  Containers : List Container
  InitContainers : List Container
  Volumes : List Volume
  RestartPolicy : String
  ServiceAccountName : String
  PriorityClassName : String
  deriving DecidableEq, Repr

/-- A `corev1.PodTemplateSpec`: the labels of its metadata and the pod spec. -/
structure PodTemplateSpec where
  Labels : List (String × String)
  Spec : PodSpec
  deriving DecidableEq, Repr

/-- An `appsv1.Deployment`: metadata, the fields of its spec, and its status. -/
structure Deployment where
  Name : String
  Namespace : String
  Labels : List (String × String)
  Replicas : Option Nat
  Selector : List (String × String)
  Strategy : String
  Template : PodTemplateSpec
  ReadyReplicas : Nat
  deriving DecidableEq, Repr

/-- The attributes of a component or of the workspace (`attributes.Attributes`, a map from
key to raw JSON value). -/
abbrev Attributes (Raw : Type) := List (String × Raw)

/-- A component of the workspace template: its name and its attributes. -/
structure Component (Raw : Type) where
  Name : String
  Attributes : Attributes Raw

/-- The part of `common.DevWorkspaceWithConfig` read here: `.Spec.Template.Attributes` and
`.Spec.Template.Components`. -/
structure DevWorkspaceWithConfig (Raw : Type) where
  Attributes : Attributes Raw
  Components : List (Component Raw)

/-- A `corev1.Secret`: name, annotations and data (key to bytes). -/
structure Secret where
  Name : String
  Annotations : List (String × String)
  Data : List (String × List Nat)
  deriving DecidableEq, Repr

/-- The `automountResources` of package `automount`. -/
structure automountResources where
  Volumes : List Volume
  VolumeMounts : List VolumeMount
  EnvFromSource : List EnvFromSource
  deriving DecidableEq, Repr

/-! ## Declarations used by the two files and declared elsewhere -/

/-- The constants of `pkg/constants` and the naming helper of `pkg/common` that the two files
use; their declarations are not among the sources, so they are parameters. -/
structure Constants where
  PodOverridesAttribute : String
  DevWorkspaceMountLabel : String
  DevWorkspaceMountAsAnnotation : String
  DevWorkspaceMountPathAnnotation : String
  AutoMountSecretVolumeName : String → String

/-- The library functions called by `pods.go`: the decoder behind `Attributes.GetInto`,
`json.Marshal` and `json.Unmarshal` at type `corev1.PodTemplateSpec`, and
`strategicpatch.StrategicMergePatch` with the `corev1.PodTemplateSpec` schema.
`Raw` is the type of raw attribute values, `Bytes` the serialized form. -/
structure Codec (Raw Bytes : Type) where
  Decode : Raw → Except String PodTemplateSpec
  KeyNotFound : String → String
  Marshal : PodTemplateSpec → Except String Bytes
  StrategicMergePatch : Bytes → Bytes → Except String Bytes
  Unmarshal : Bytes → Except String PodTemplateSpec

/-- The cluster client of `sync.ClusterAPI`: `Client.List` for secrets, given the namespace
and the label selector (key, value). -/
structure ClusterAPI where
  List : String → String × String → Except String (List Secret)

/-! ## `attributes.Attributes` -/

/-- `Attributes.Exists(key)`. -/
def Attributes.Exists {Raw : Type} (a : Attributes Raw) (key : String) : Bool :=
  (a.lookup key).isSome

/-- `Attributes.GetInto(key, &into)` for `into` a fresh `corev1.PodTemplateSpec`: the value
decoded, or the error of the decoder, or the key-not-found error. -/
def Attributes.GetInto {Raw Bytes : Type} (lib : Codec Raw Bytes) (a : Attributes Raw)
    (key : String) : Except String PodTemplateSpec :=
  match a.lookup key with
  | none => .error (lib.KeyNotFound key)
  | some raw => lib.Decode raw

/-! ## `pkg/library/overrides/pods.go` -/

/-- `NeedsPodOverrides`. -/
def NeedsPodOverrides {Raw : Type} (c : Constants) (workspace : DevWorkspaceWithConfig Raw) :
    Bool :=
  if workspace.Attributes.Exists c.PodOverridesAttribute then true
  else workspace.Components.any (fun component =>
    component.Attributes.Exists c.PodOverridesAttribute)

/-- Lines 93-95 and 106-108 of `pods.go`: the three assignments
`override.Spec.Containers = nil`, `.InitContainers = nil`, `.Volumes = nil`. -/
def clearProtected (override : PodTemplateSpec) : PodTemplateSpec :=
  { override with
    Spec := { override.Spec with Containers := [], InitContainers := [], Volumes := [] } }

/-- The loop of `getPodOverrides` over the components (lines 85-98), started with the
overrides collected so far; an error returns `nil` next to it. -/
def getPodOverridesLoop {Raw Bytes : Type} (c : Constants) (lib : Codec Raw Bytes) :
    List (Component Raw) → List PodTemplateSpec → List PodTemplateSpec × Option String
  | [], allOverrides => (allOverrides, none)
  | component :: rest, allOverrides =>
    if component.Attributes.Exists c.PodOverridesAttribute then
      match component.Attributes.GetInto lib c.PodOverridesAttribute with
      | .error err =>
        ([], some ("failed to parse " ++ c.PodOverridesAttribute ++ " attribute on component "
          ++ component.Name ++ ": " ++ err))
      | .ok override =>
        getPodOverridesLoop c lib rest (allOverrides ++ [clearProtected override])
    else getPodOverridesLoop c lib rest allOverrides

/-- `getPodOverrides`. -/
def getPodOverrides {Raw Bytes : Type} (c : Constants) (lib : Codec Raw Bytes)
    (workspace : DevWorkspaceWithConfig Raw) : List PodTemplateSpec × Option String :=
  match getPodOverridesLoop c lib workspace.Components [] with
  | (_, some err) => ([], some err)
  | (allOverrides, none) =>
    if workspace.Attributes.Exists c.PodOverridesAttribute then
      match workspace.Attributes.GetInto lib c.PodOverridesAttribute with
      | .error err =>
        ([], some ("failed to parse " ++ c.PodOverridesAttribute
          ++ " attribute for workspace: " ++ err))
      | .ok override => (allOverrides ++ [clearProtected override], none)
    else (allOverrides, none)

/-- The loop of `ApplyPodOverrides` over the overrides (lines 57-67): each override is
marshalled and merged into the bytes produced so far. -/
def applyOverridesLoop {Raw Bytes : Type} (lib : Codec Raw Bytes) :
    List PodTemplateSpec → Bytes → Except String Bytes
  | [], patchedTemplateBytes => .ok patchedTemplateBytes
  | override :: rest, patchedTemplateBytes =>
    match lib.Marshal override with
    | .error err => .error ("error applying pod overrides: " ++ err)
    | .ok patchBytes =>
      match lib.StrategicMergePatch patchedTemplateBytes patchBytes with
      | .error err => .error ("error applying pod overrides: " ++ err)
      | .ok merged => applyOverridesLoop lib rest merged

/-- `ApplyPodOverrides`. -/
def ApplyPodOverrides {Raw Bytes : Type} (c : Constants) (lib : Codec Raw Bytes)
    (workspace : DevWorkspaceWithConfig Raw) (deployment : Deployment) :
    Option Deployment × Option String :=
  match getPodOverrides c lib workspace with
  | (_, some err) => (none, some err)
  | (overrides, none) =>
    let patched := deployment
    let originalContainers := patched.Template.Spec.Containers
    match lib.Marshal patched.Template with
    | .error err => (none, some ("failed to marshal deployment to yaml: " ++ err))
    | .ok patchedTemplateBytes =>
      match applyOverridesLoop lib overrides patchedTemplateBytes with
      | .error err => (none, some err)
      | .ok patchedTemplateBytes =>
        match lib.Unmarshal patchedTemplateBytes with
        | .error err => (none, some ("error applying pod overrides: " ++ err))
        | .ok patchedPodSpecTemplate =>
          (some { patched with
            Template := { patchedPodSpecTemplate with
              Spec := { patchedPodSpecTemplate.Spec with
                Containers := originalContainers } } }, none)

/-! ## Go runtime and standard library used by `secret.go` -/

/-- Go's `m[key]` on a `map[string]string`: the value, or the empty string when the key is
absent. -/
def mapIndex (m : List (String × String)) (key : String) : String :=
  (m.lookup key).getD ""

/-- Insert `a` at position `n` of a list (at the end when the list is shorter). -/
def insertAt {α : Type} : Nat → α → List α → List α
  | 0, a, l => a :: l
  | _ + 1, a, [] => [a]
  | n + 1, a, x :: xs => x :: insertAt n a xs

/-- Go's `for k := range m` visits the keys of a map in an order that the runtime picks
afresh for every loop. The pick is an explicit argument: `rangeOrder pick keys` is the
permutation of `keys` numbered `pick` (`0` keeps the stored order). -/
def rangeOrder {α : Type} : Nat → List α → List α
  | _, [] => []
  | pick, x :: xs =>
    insertAt (pick % (xs.length + 1)) x (rangeOrder (pick / (xs.length + 1)) xs)

/-- Go's `strings.Split(s, "/")` on the characters of a path. -/
def splitSlash : List Char → List (List Char)
  | [] => [[]]
  | ch :: cs =>
    match splitSlash cs with
    | [] => [[]]
    | e :: es => if ch = '/' then [] :: e :: es else (ch :: e) :: es

/-- The element loop of Go's `path.Clean`: empty and `.` elements are dropped, a `..`
removes the element before it (at the root it is dropped, in a relative path with nothing
to remove it is kept); `out` is the output so far, last element first. -/
def cleanElems (rooted : Bool) : List (List Char) → List (List Char) → List (List Char)
  | [], out => out.reverse
  | e :: rest, out =>
    if e = [] ∨ e = ['.'] then cleanElems rooted rest out
    else if e = ['.', '.'] then
      match out with
      | [] => cleanElems rooted rest (if rooted then [] else [e])
      | top :: below =>
        if top = ['.', '.'] then cleanElems rooted rest (if rooted then out else e :: out)
        else cleanElems rooted rest below
    else cleanElems rooted rest (e :: out)

/-- Go's `path.Clean`. -/
def pathClean (path : String) : String :=
  match path.data with
  | [] => "."
  | ch :: cs =>
    let rooted : Bool := ch = '/'
    let out := String.mk (List.intercalate ['/'] (cleanElems rooted (splitSlash (ch :: cs)) []))
    if rooted then "/" ++ out else if out = "" then "." else out

/-- Go's `path.Join`: the non-empty elements joined by a slash, then cleaned; the empty
string when every element is empty. -/
def pathJoin (elem : List String) : String :=
  match elem.filter (fun e => e ≠ "") with
  | [] => ""
  | es => pathClean ("/".intercalate es)

/-! ## `pkg/provision/automount/secret.go` -/

/-- `getAutoMountVolumeWithSecret`; `0640` is an octal literal in the source. -/
def getAutoMountVolumeWithSecret (c : Constants) (name : String) : Volume :=
  let modeReadOnly : Nat := 0o640
  { Name := c.AutoMountSecretVolumeName name
    Secret := some { SecretName := name, DefaultMode := some modeReadOnly } }

/-- `getAutoMountSecretVolumeMount`. -/
def getAutoMountSecretVolumeMount (c : Constants) (mountPath name : String) : VolumeMount :=
  { Name := c.AutoMountSecretVolumeName name
    ReadOnly := true
    MountPath := mountPath
    SubPath := "" }

/-- `getAutoMountSecretSubpathVolumeMounts`; `pick` is the order in which this run of the
`range` loop visits `secret.Data`. -/
def getAutoMountSecretSubpathVolumeMounts (c : Constants) (pick : Nat) (mountPath : String)
    (secret : Secret) : List VolumeMount :=
  (rangeOrder pick (secret.Data.map Prod.fst)).map (fun secretKey =>
    { Name := c.AutoMountSecretVolumeName secret.Name
      ReadOnly := true
      MountPath := pathJoin [mountPath, secretKey]
      SubPath := secretKey })

/-- `getAutoMountSecretEnvFromSource`. -/
def getAutoMountSecretEnvFromSource (name : String) : EnvFromSource :=
  { SecretRef := some name }

/-- The body of the loop of `getDevWorkspaceSecrets` (lines 39-58) for one secret, applied
to the three slices built so far; `order secret` is the iteration order of the data map of
that secret in this run. -/
def secretStep (c : Constants) (order : Secret → Nat) (acc : automountResources)
    (secret : Secret) : automountResources :=
  let mountAs := mapIndex secret.Annotations c.DevWorkspaceMountAsAnnotation
  if mountAs = "env" then
    { acc with
      EnvFromSource := acc.EnvFromSource ++ [getAutoMountSecretEnvFromSource secret.Name] }
  else
    let mountPath := mapIndex secret.Annotations c.DevWorkspaceMountPathAnnotation
    let mountPath := if mountPath = "" then pathJoin ["/etc/", "secret/", secret.Name]
      else mountPath
    if mountAs = "subpath" then
      { acc with
        Volumes := acc.Volumes ++ [getAutoMountVolumeWithSecret c secret.Name]
        VolumeMounts := acc.VolumeMounts ++
          getAutoMountSecretSubpathVolumeMounts c (order secret) mountPath secret }
    else
      { acc with
        Volumes := acc.Volumes ++ [getAutoMountVolumeWithSecret c secret.Name]
        VolumeMounts := acc.VolumeMounts ++
          [getAutoMountSecretVolumeMount c mountPath secret.Name] }

/-- The loop of `getDevWorkspaceSecrets` over `secrets.Items` (lines 36-58), started with
the three nil slices. -/
def secretsLoop (c : Constants) (order : Secret → Nat) (secrets : List Secret) :
    automountResources :=
  secrets.foldl (secretStep c order) { Volumes := [], VolumeMounts := [], EnvFromSource := [] }

/-- `getDevWorkspaceSecrets`; `order` is the iteration order the runtime picks, in this
run, for the data map of each secret. -/
def getDevWorkspaceSecrets (c : Constants) (order : Secret → Nat) (ns : String)
    (api : ClusterAPI) : Option automountResources × Option String :=
  match api.List ns (c.DevWorkspaceMountLabel, "true") with
  | .error err => (none, some err)
  | .ok secrets => (some (secretsLoop c order secrets), none)

/-! ## A model of the JSON codec and of the strategic merge

`pods.go` calls `json.Marshal`, `strategicpatch.StrategicMergePatch` and `json.Unmarshal` of
the Kubernetes libraries. The definitions of this section give them the behaviour that the
specification (section 4.3) and the comment on lines 49-51 of `pods.go` describe, on the
fields of the data model above. -/

/-- Modelled from the spec: the serialized form of a pod template ("a structured byte form").
A field is `none` when the serialized document does not carry it; for `containers`, which
the schema does not make optional, `none` is the `null` that `json.Marshal` writes for an
empty list. -/
structure TemplateDoc where
  labels : Option (List (String × String))
  containers : Option (List Container)
  initContainers : Option (List Container)
  volumes : Option (List Volume)
  restartPolicy : Option String
  serviceAccountName : Option String
  priorityClassName : Option String
  deriving DecidableEq, Repr

/-- Modelled from the spec: a raw attribute value is either malformed (decoding it fails
with the given message) or a pod template document. -/
inductive RawJSON where
  | malformed (message : String)
  | document (doc : TemplateDoc)
  deriving DecidableEq, Repr

/-- Modelled from the spec: an empty list is left out of the serialized document. -/
def omitEmptyList {α : Type} (l : List α) : Option (List α) :=
  match l with
  | [] => none
  | x :: xs => some (x :: xs)

/-- Modelled from the spec: an empty string is left out of the serialized document. -/
def omitEmptyString (s : String) : Option String :=
  if s = "" then none else some s

/-- Modelled from the spec: `json.Marshal` of a pod template ("serialize the baseline
template to a structured byte form"). -/
def marshalDoc (t : PodTemplateSpec) : TemplateDoc :=
  { labels := omitEmptyList t.Labels
    containers := omitEmptyList t.Spec.Containers
    initContainers := omitEmptyList t.Spec.InitContainers
    volumes := omitEmptyList t.Spec.Volumes
    restartPolicy := omitEmptyString t.Spec.RestartPolicy
    serviceAccountName := omitEmptyString t.Spec.ServiceAccountName
    priorityClassName := omitEmptyString t.Spec.PriorityClassName }

/-- Modelled from the spec: `json.Unmarshal` into a fresh pod template ("deserialize the
result"); a field the document does not carry keeps its zero value. -/
def unmarshalDoc (d : TemplateDoc) : PodTemplateSpec :=
  { Labels := d.labels.getD []
    Spec :=
      { Containers := d.containers.getD []
        InitContainers := d.initContainers.getD []
        Volumes := d.volumes.getD []
        RestartPolicy := d.restartPolicy.getD ""
        ServiceAccountName := d.serviceAccountName.getD ""
        PriorityClassName := d.priorityClassName.getD "" } }

/-- Modelled from the spec: "scalar fields in the fragment replace the corresponding
baseline field"; a field the fragment does not carry leaves the baseline field alone. -/
def mergeScalar (original patch : Option String) : Option String :=
  match patch with
  | some v => some v
  | none => original

/-- Modelled from the spec: set one key of a label map (replace the value of a key that is
there, add the key at the end otherwise). -/
def setLabel : List (String × String) → String → String → List (String × String)
  | [], k, v => [(k, v)]
  | (k0, v0) :: rest, k, v => if k0 = k then (k, v) :: rest else (k0, v0) :: setLabel rest k v

/-- Modelled from the spec: merge of a map field, key by key. -/
def mergeLabels (original patch : Option (List (String × String))) :
    Option (List (String × String)) :=
  match patch with
  | none => original
  | some p => some (p.foldl (fun m kv => setLabel m kv.1 kv.2) (original.getD []))

/-- Modelled from the spec: merge of a list field with merge key `name`: "fragment entries
with a matching key overwrite the corresponding baseline entry, fragment entries with no
match are appended, baseline entries with no corresponding fragment entry are kept in their
original relative order". -/
def mergeByName {α : Type} (name : α → String) (original patch : List α) : List α :=
  original.map (fun o => (patch.find? (fun q => name q = name o)).getD o) ++
    patch.filter (fun q => !original.any (fun o => name o = name q))

/-- Modelled from the spec: merge of an optional list field; a fragment that does not carry
the field leaves the baseline list alone. -/
def mergeOptionalList {α : Type} (name : α → String) (original patch : Option (List α)) :
    Option (List α) :=
  match patch with
  | none => original
  | some p => some (mergeByName name (original.getD []) p)

/-- Modelled from the spec: the strategic merge of a fragment onto the serialized template.
The `null` that a fragment carries for `containers` deletes the container list ("even a nil
list will be interpreted as delete all containers", `pods.go` lines 49-51). -/
def strategicMerge (original patch : TemplateDoc) : TemplateDoc :=
  { labels := mergeLabels original.labels patch.labels
    containers :=
      match patch.containers with
      | none => none
      | some p => some (mergeByName Container.Name (original.containers.getD []) p)
    initContainers := mergeOptionalList Container.Name original.initContainers
      patch.initContainers
    volumes := mergeOptionalList Volume.Name original.volumes patch.volumes
    restartPolicy := mergeScalar original.restartPolicy patch.restartPolicy
    serviceAccountName := mergeScalar original.serviceAccountName patch.serviceAccountName
    priorityClassName := mergeScalar original.priorityClassName patch.priorityClassName }

/-- Modelled from the spec: the codec and merge library as section 4.3 describes them; the
JSON codec and the strategic merge patch of the Kubernetes libraries are not among the
sources. Decoding fails on malformed input only; marshalling, merging and unmarshalling
of documents never fail. -/
def specCodec : Codec RawJSON TemplateDoc :=
  { Decode := fun raw =>
      match raw with
      | .malformed message => .error message
      | .document doc => .ok (unmarshalDoc doc)
    KeyNotFound := fun key => "attribute with key " ++ key ++ " does not exist"
    Marshal := fun t => .ok (marshalDoc t)
    StrategicMergePatch := fun original patch => .ok (strategicMerge original patch)
    Unmarshal := fun d => .ok (unmarshalDoc d) }

/-- Values for the constants, for evaluating the functions on concrete inputs. -/
def sampleConstants : Constants :=
  { PodOverridesAttribute := "pod-overrides"
    DevWorkspaceMountLabel := "controller.devfile.io/mount-to-devworkspace"
    DevWorkspaceMountAsAnnotation := "controller.devfile.io/mount-as"
    DevWorkspaceMountPathAnnotation := "controller.devfile.io/mount-path"
    AutoMountSecretVolumeName := fun name => "automount-secret-" ++ name }

/-! ## Predicates used to state the properties -/

/-- The override attribute of an attribute map, when present, decodes. -/
def overrideDecodes {Raw Bytes : Type} (c : Constants) (lib : Codec Raw Bytes)
    (a : Attributes Raw) : Bool :=
  match a.lookup c.PodOverridesAttribute with
  | none => true
  | some raw =>
    match lib.Decode raw with
    | .ok _ => true
    | .error _ => false

/-! ## Sample inputs -/

/-- The document that carries no field. -/
def emptyDoc : TemplateDoc :=
  { labels := none, containers := none, initContainers := none, volumes := none,
    restartPolicy := none, serviceAccountName := none, priorityClassName := none }

/-- A baseline deployment with the single container `main`. -/
def mainDeployment : Deployment :=
  { Name := "workspace", Namespace := "user-ns", Labels := [], Replicas := some 1,
    Selector := [("app", "workspace")], Strategy := "Recreate", ReadyReplicas := 0,
    Template :=
      { Labels := [("app", "workspace")]
        Spec :=
          { Containers := [{ Name := "main", Image := "quay.io/devfile/universal" }]
            InitContainers := [], Volumes := [], RestartPolicy := "",
            ServiceAccountName := "", PriorityClassName := "" } } }

/-- A workspace whose component `C1` sets `restartPolicy=Always` and whose workspace-level
override sets `restartPolicy=OnFailure`. -/
def restartWorkspace : DevWorkspaceWithConfig RawJSON :=
  { Attributes :=
      [("pod-overrides", .document { emptyDoc with restartPolicy := some "OnFailure" })]
    Components :=
      [{ Name := "C1"
         Attributes :=
           [("pod-overrides", .document { emptyDoc with restartPolicy := some "Always" })] }] }

/-- A workspace whose overrides declare a container, an init container and a volume. -/
def intrudingWorkspace : DevWorkspaceWithConfig RawJSON :=
  { Attributes :=
      [("pod-overrides", .document { emptyDoc with
          containers := some [{ Name := "main", Image := "evil" }]
          volumes := some [{ Name := "host", Secret := none }] })]
    Components :=
      [{ Name := "tools", Attributes := [] },
       { Name := "editor"
         Attributes :=
           [("pod-overrides", .document { emptyDoc with
              containers := some [{ Name := "sidecar", Image := "evil" }]
              initContainers := some [{ Name := "init", Image := "evil" }]
              serviceAccountName := some "builder" })] }] }

/-- A workspace whose second component carries a malformed override; the first component
and the workspace carry well-formed ones. -/
def brokenComponentWorkspace : DevWorkspaceWithConfig RawJSON :=
  { Attributes :=
      [("pod-overrides", .document { emptyDoc with restartPolicy := some "OnFailure" })]
    Components :=
      [{ Name := "tools"
         Attributes :=
           [("pod-overrides", .document { emptyDoc with restartPolicy := some "Always" })] },
       { Name := "editor", Attributes := [("pod-overrides", .malformed "unexpected end") ] },
       { Name := "late", Attributes := [("pod-overrides", .malformed "bad token") ] }] }

/-- A workspace whose workspace-level override is malformed; its component override is
well-formed. -/
def brokenGlobalWorkspace : DevWorkspaceWithConfig RawJSON :=
  { Attributes := [("pod-overrides", .malformed "unexpected end")]
    Components :=
      [{ Name := "tools"
         Attributes :=
           [("pod-overrides", .document { emptyDoc with restartPolicy := some "Always" })] }] }

/-- A workspace without workspace-level override whose components `first` and `second`
both set `restartPolicy`; the component `third` sets another field. -/
def twoComponentWorkspace : DevWorkspaceWithConfig RawJSON :=
  { Attributes := []
    Components :=
      [{ Name := "first"
         Attributes :=
           [("pod-overrides", .document { emptyDoc with restartPolicy := some "Always" })] },
       { Name := "second"
         Attributes :=
           [("pod-overrides", .document { emptyDoc with restartPolicy := some "Never" })] },
       { Name := "third"
         Attributes :=
           [("pod-overrides",
             .document { emptyDoc with serviceAccountName := some "builder" })] }] }

/-- The scalar pod fields of the data model. -/
inductive ScalarField where
  | restartPolicy
  | serviceAccountName
  | priorityClassName
  deriving DecidableEq, Repr

/-- The value of a scalar pod field in a pod template (the empty string: not set). -/
def ScalarField.get : ScalarField → PodTemplateSpec → String
  | .restartPolicy, t => t.Spec.RestartPolicy
  | .serviceAccountName, t => t.Spec.ServiceAccountName
  | .priorityClassName, t => t.Spec.PriorityClassName

/-- The resources of `a` followed by the resources of `b`, slice by slice. -/
def appendResources (a b : automountResources) : automountResources :=
  { Volumes := a.Volumes ++ b.Volumes
    VolumeMounts := a.VolumeMounts ++ b.VolumeMounts
    EnvFromSource := a.EnvFromSource ++ b.EnvFromSource }

/-- The mount path the loop of `getDevWorkspaceSecrets` computes for a secret (lines 45-48):
the mount-path annotation, or `/etc/secret/<name>` when the annotation reads as empty. -/
def secretMountPath (c : Constants) (secret : Secret) : String :=
  if mapIndex secret.Annotations c.DevWorkspaceMountPathAnnotation = "" then
    pathJoin ["/etc/", "secret/", secret.Name]
  else mapIndex secret.Annotations c.DevWorkspaceMountPathAnnotation

/-- A cluster client whose list call returns the given secrets. -/
def listerOf (secrets : List Secret) : ClusterAPI :=
  { List := fun _ _ => .ok secrets }

/-- The secret `db-creds`, mounted as environment. -/
def dbCreds : Secret :=
  { Name := "db-creds"
    Annotations := [("controller.devfile.io/mount-as", "env"),
      ("controller.devfile.io/mount-path", "/var/db")]
    Data := [("user", [97]), ("password", [98])] }

/-- The secret `tls-certs`, mounted by sub-path, without mount-path annotation. -/
def tlsCerts : Secret :=
  { Name := "tls-certs"
    Annotations := [("controller.devfile.io/mount-as", "subpath")]
    Data := [("cert.pem", [1]), ("key.pem", [2])] }

/-- A secret whose mount-mode annotation is not a recognized value. -/
def bogusSecret : Secret :=
  { Name := "settings"
    Annotations := [("controller.devfile.io/mount-as", "bogus")]
    Data := [("settings.xml", [60])] }

/-- The secret `settings` with mount mode `file`. -/
def fileSecret : Secret :=
  { Name := "settings"
    Annotations := [("controller.devfile.io/mount-as", "file")]
    Data := [("settings.xml", [60])] }

/-- A secret without mount-mode annotation and with a declared mount path. -/
def plainSecret : Secret :=
  { Name := "git-config"
    Annotations := [("controller.devfile.io/mount-path", "/home/user/.config/git")]
    Data := [("config", [91])] }

/-- An ordinary path element: not empty, without slash, and neither `.` nor `..`. -/
def ordinaryElem (e : List Char) : Bool :=
  decide (e ≠ []) && decide ('/' ∉ e) && decide (e ≠ ['.']) && decide (e ≠ ['.', '.'])

/-- A name that is an ordinary path element, as the names of secrets and of their data keys
are. -/
def ordinaryName (s : String) : Bool :=
  ordinaryElem s.data

/-- A clean absolute path below the root: a slash followed by ordinary elements separated by
single slashes. -/
def cleanAbsolute (p : String) : Bool :=
  match p.data with
  | '/' :: cs => (splitSlash cs).all ordinaryElem
  | _ => false

/-- A workspace that carries no override attribute, neither on the workspace nor on a
component. -/
def plainWorkspace : DevWorkspaceWithConfig RawJSON :=
  { Attributes := [("controller.devfile.io/storage-type", .malformed "ephemeral")]
    Components :=
      [{ Name := "tools", Attributes := [] },
       { Name := "editor", Attributes := [("editor-settings", .document emptyDoc)] }] }

/-- The codec of the specification with a strategic merge that rejects every fragment whose
restart policy is `Sometimes`; for evaluating the failure paths of the merge loop. -/
def rejectingCodec : Codec RawJSON TemplateDoc :=
  { Decode := specCodec.Decode
    KeyNotFound := specCodec.KeyNotFound
    Marshal := specCodec.Marshal
    StrategicMergePatch := fun original patch =>
      if patch.restartPolicy = some "Sometimes" then .error "unrecognized restart policy"
      else .ok (strategicMerge original patch)
    Unmarshal := specCodec.Unmarshal }

/-- A workspace whose only override (fragment index 0) sets the restart policy
`Sometimes`. -/
def rejectedFirstWorkspace : DevWorkspaceWithConfig RawJSON :=
  { Attributes := []
    Components :=
      [{ Name := "editor"
         Attributes :=
           [("pod-overrides", .document { emptyDoc with restartPolicy := some "Sometimes" })] }] }

/-- A workspace whose first override (fragment index 0) sets a service account and whose
second override (fragment index 1) sets the restart policy `Sometimes`. -/
def rejectedSecondWorkspace : DevWorkspaceWithConfig RawJSON :=
  { Attributes := []
    Components :=
      [{ Name := "tools"
         Attributes :=
           [("pod-overrides",
             .document { emptyDoc with serviceAccountName := some "builder" })] },
       { Name := "editor"
         Attributes :=
           [("pod-overrides", .document { emptyDoc with restartPolicy := some "Sometimes" })] }] }

/-- A cluster client whose list call fails. -/
def failingLister : ClusterAPI :=
  { List := fun _ _ => .error "secrets is forbidden" }

/-- The mount mode the loop of `getDevWorkspaceSecrets` reads for a secret (line 40). -/
def secretMountAs (c : Constants) (secret : Secret) : String :=
  mapIndex secret.Annotations c.DevWorkspaceMountAsAnnotation

/-- The volume mounts the loop of `getDevWorkspaceSecrets` appends for a secret that is not
mounted as environment (lines 49-57). -/
def secretVolumeMounts (c : Constants) (order : Secret → Nat) (secret : Secret) :
    List VolumeMount :=
  if secretMountAs c secret = "subpath" then
    getAutoMountSecretSubpathVolumeMounts c (order secret) (secretMountPath c secret) secret
  else [getAutoMountSecretVolumeMount c (secretMountPath c secret) secret.Name]

/-- A baseline deployment with an init container, a volume and a label besides the
container `main`. -/
def fullDeployment : Deployment :=
  { Name := "workspace", Namespace := "user-ns", Labels := [], Replicas := some 1,
    Selector := [("app", "workspace")], Strategy := "Recreate", ReadyReplicas := 1,
    Template :=
      { Labels := [("app", "workspace")]
        Spec :=
          { Containers := [{ Name := "main", Image := "quay.io/devfile/universal" }]
            InitContainers := [{ Name := "project-clone", Image := "quay.io/devfile/clone" }]
            Volumes := [{ Name := "projects", Secret := none }]
            RestartPolicy := "Always"
            ServiceAccountName := "workspace-sa"
            PriorityClassName := "" } } }

/-- A workspace whose three components each set a field of their own: the restart policy,
the service account name, and the label `team`. -/
def distinctFieldsWorkspace : DevWorkspaceWithConfig RawJSON :=
  { Attributes := []
    Components :=
      [{ Name := "first"
         Attributes :=
           [("pod-overrides", .document { emptyDoc with restartPolicy := some "Never" })] },
       { Name := "second"
         Attributes :=
           [("pod-overrides",
             .document { emptyDoc with serviceAccountName := some "builder" })] },
       { Name := "third"
         Attributes :=
           [("pod-overrides",
             .document { emptyDoc with labels := some [("team", "ide")] })] }] }

/-- A pod-level field an override can set: a scalar field or the label with a given key. -/
inductive PodField where
  | scalar (f : ScalarField)
  | label (key : String)
  deriving DecidableEq, Repr

/-- The value a pod template gives to a pod-level field, `none` when it does not set it. -/
def PodField.get : PodField → PodTemplateSpec → Option String
  | .scalar f, t => if f.get t = "" then none else some (f.get t)
  | .label key, t => t.Labels.lookup key

/-! ## Properties of `pods.go` -/

theorem getPodOverridesLoop_cleared {Raw Bytes : Type} (c : Constants) (lib : Codec Raw Bytes)
    (components : List (Component Raw)) :
    ∀ allOverrides : List PodTemplateSpec,
      (∀ o ∈ allOverrides,
        o.Spec.Containers = [] ∧ o.Spec.InitContainers = [] ∧ o.Spec.Volumes = []) →
      ∀ o ∈ (getPodOverridesLoop c lib components allOverrides).1,
        o.Spec.Containers = [] ∧ o.Spec.InitContainers = [] ∧ o.Spec.Volumes = [] := by
  induction components with
  | nil => intro acc hacc; simpa [getPodOverridesLoop] using hacc
  | cons comp rest ih =>
    intro acc hacc
    unfold getPodOverridesLoop
    split
    · split
      · intro o ho; simp at ho
      · apply ih
        intro o ho
        rcases List.mem_append.mp ho with h | h
        · exact hacc o h
        · simp at h; subst h; simp [clearProtected]
    · exact ih acc hacc

/-- C1. Whenever `ApplyPodOverrides` returns without error, it returns a deployment whose
pod template has exactly the container list of the input deployment, for every codec and
merge library and every content of the override attributes. -/
theorem ApplyPodOverrides_keeps_containers {Raw Bytes : Type} (c : Constants)
    (lib : Codec Raw Bytes) (workspace : DevWorkspaceWithConfig Raw) (deployment : Deployment)
    (h : (ApplyPodOverrides c lib workspace deployment).2 = none) :
    ∃ patched, (ApplyPodOverrides c lib workspace deployment).1 = some patched ∧
      patched.Template.Spec.Containers = deployment.Template.Spec.Containers := by
  unfold ApplyPodOverrides at h ⊢
  rcases hov : getPodOverrides c lib workspace with ⟨overrides, _ | err⟩
  · simp only [hov] at h ⊢
    cases hm : lib.Marshal deployment.Template with
    | error e => simp [hm] at h
    | ok b =>
      simp only [hm] at h ⊢
      cases hl : applyOverridesLoop lib overrides b with
      | error e => simp [hl] at h
      | ok b2 =>
        simp only [hl] at h ⊢
        cases hu : lib.Unmarshal b2 with
        | error e => simp [hu] at h
        | ok t => simp
  · simp [hov] at h

theorem ApplyPodOverrides_keeps_containers_witness :
    (ApplyPodOverrides sampleConstants specCodec intrudingWorkspace mainDeployment).2 = none ∧
    ∃ patched,
      (ApplyPodOverrides sampleConstants specCodec intrudingWorkspace mainDeployment).1
        = some patched ∧
      patched.Template.Spec.Containers = mainDeployment.Template.Spec.Containers :=
  ⟨by decide, ApplyPodOverrides_keeps_containers sampleConstants specCodec intrudingWorkspace
    mainDeployment (by decide)⟩

/-- C2. Whenever `getPodOverrides` succeeds, every fragment it returns has an empty
containers list, an empty init-containers list and an empty volumes list. -/
theorem getPodOverrides_fragments_cleared {Raw Bytes : Type} (c : Constants)
    (lib : Codec Raw Bytes) (workspace : DevWorkspaceWithConfig Raw)
    (_h : (getPodOverrides c lib workspace).2 = none) :
    ∀ o ∈ (getPodOverrides c lib workspace).1,
      o.Spec.Containers = [] ∧ o.Spec.InitContainers = [] ∧ o.Spec.Volumes = [] := by
  have hloop := getPodOverridesLoop_cleared c lib workspace.Components []
    (by intro o ho; simp at ho)
  unfold getPodOverrides
  split
  · intro o ho; simp at ho
  · rename_i all hall
    rw [hall] at hloop
    split
    · split
      · intro o ho; simp at ho
      · intro o ho
        rcases List.mem_append.mp ho with h | h
        · exact hloop o h
        · simp at h; subst h; simp [clearProtected]
    · exact hloop

theorem getPodOverrides_fragments_cleared_witness :
    (getPodOverrides sampleConstants specCodec intrudingWorkspace).1.length = 2 ∧
    ∀ o ∈ (getPodOverrides sampleConstants specCodec intrudingWorkspace).1,
      o.Spec.Containers = [] ∧ o.Spec.InitContainers = [] ∧ o.Spec.Volumes = [] :=
  ⟨by decide, getPodOverrides_fragments_cleared sampleConstants specCodec intrudingWorkspace
    (by decide)⟩

theorem overrideDecodes_some {Raw Bytes : Type} {c : Constants} {lib : Codec Raw Bytes}
    {a : Attributes Raw} {raw : Raw} (h : overrideDecodes c lib a = true)
    (hl : a.lookup c.PodOverridesAttribute = some raw) : ∃ d, lib.Decode raw = .ok d := by
  unfold overrideDecodes at h
  rw [hl] at h
  cases hd : lib.Decode raw with
  | ok d => exact ⟨d, rfl⟩
  | error e => simp [hd] at h

theorem getPodOverridesLoop_step_none {Raw Bytes : Type} (c : Constants)
    (lib : Codec Raw Bytes) (comp : Component Raw) (rest : List (Component Raw))
    (acc : List PodTemplateSpec) (hl : comp.Attributes.lookup c.PodOverridesAttribute = none) :
    getPodOverridesLoop c lib (comp :: rest) acc = getPodOverridesLoop c lib rest acc := by
  simp [getPodOverridesLoop, Attributes.Exists, hl]

theorem getPodOverridesLoop_step_ok {Raw Bytes : Type} (c : Constants)
    (lib : Codec Raw Bytes) (comp : Component Raw) (rest : List (Component Raw))
    (acc : List PodTemplateSpec) (raw : Raw) (d : PodTemplateSpec)
    (hl : comp.Attributes.lookup c.PodOverridesAttribute = some raw)
    (hd : lib.Decode raw = .ok d) :
    getPodOverridesLoop c lib (comp :: rest) acc
      = getPodOverridesLoop c lib rest (acc ++ [clearProtected d]) := by
  simp [getPodOverridesLoop, Attributes.Exists, Attributes.GetInto, hl, hd]

theorem getPodOverridesLoop_step_error {Raw Bytes : Type} (c : Constants)
    (lib : Codec Raw Bytes) (comp : Component Raw) (rest : List (Component Raw))
    (acc : List PodTemplateSpec) (raw : Raw) (e : String)
    (hl : comp.Attributes.lookup c.PodOverridesAttribute = some raw)
    (hd : lib.Decode raw = .error e) :
    getPodOverridesLoop c lib (comp :: rest) acc
      = ([], some ("failed to parse " ++ c.PodOverridesAttribute ++ " attribute on component "
          ++ comp.Name ++ ": " ++ e)) := by
  simp [getPodOverridesLoop, Attributes.Exists, Attributes.GetInto, hl, hd]

theorem getPodOverridesLoop_ok {Raw Bytes : Type} (c : Constants) (lib : Codec Raw Bytes)
    (components : List (Component Raw))
    (h : ∀ comp ∈ components, overrideDecodes c lib comp.Attributes = true) :
    ∀ acc : List PodTemplateSpec, ∃ frags,
      getPodOverridesLoop c lib components acc = (acc ++ frags, none) ∧
      List.Forall₂ (fun raw o => ∃ d, lib.Decode raw = .ok d ∧ o = clearProtected d)
        (components.filterMap (fun comp => comp.Attributes.lookup c.PodOverridesAttribute))
        frags := by
  induction components with
  | nil => intro acc; exact ⟨[], by simp [getPodOverridesLoop]⟩
  | cons comp rest ih =>
    intro acc
    have hrest : ∀ x ∈ rest, overrideDecodes c lib x.Attributes = true :=
      fun x hx => h x (List.mem_cons_of_mem _ hx)
    cases hl : comp.Attributes.lookup c.PodOverridesAttribute with
    | none =>
      obtain ⟨frags, hf, hr⟩ := ih hrest acc
      refine ⟨frags, ?_, ?_⟩
      · rw [getPodOverridesLoop_step_none c lib comp rest acc hl, hf]
      · simpa [List.filterMap_cons, hl] using hr
    | some raw =>
      obtain ⟨d, hd⟩ := overrideDecodes_some (h comp (List.mem_cons_self _ _)) hl
      obtain ⟨frags, hf, hr⟩ := ih hrest (acc ++ [clearProtected d])
      refine ⟨clearProtected d :: frags, ?_, ?_⟩
      · rw [getPodOverridesLoop_step_ok c lib comp rest acc raw d hl hd, hf]; simp
      · simp only [List.filterMap_cons, hl]
        exact List.Forall₂.cons ⟨d, hd, rfl⟩ hr

theorem getPodOverridesLoop_append_ok {Raw Bytes : Type} (c : Constants) (lib : Codec Raw Bytes)
    (xs ys : List (Component Raw)) :
    ∀ acc out : List PodTemplateSpec, getPodOverridesLoop c lib xs acc = (out, none) →
      getPodOverridesLoop c lib (xs ++ ys) acc = getPodOverridesLoop c lib ys out := by
  induction xs with
  | nil => intro acc out h; simp [getPodOverridesLoop] at h; simp [h]
  | cons comp rest ih =>
    intro acc out h
    cases hl : comp.Attributes.lookup c.PodOverridesAttribute with
    | none =>
      rw [getPodOverridesLoop_step_none c lib comp rest acc hl] at h
      rw [List.cons_append, getPodOverridesLoop_step_none c lib comp _ acc hl]
      exact ih acc out h
    | some raw =>
      cases hd : lib.Decode raw with
      | error e =>
        rw [getPodOverridesLoop_step_error c lib comp rest acc raw e hl hd] at h
        simp at h
      | ok d =>
        rw [getPodOverridesLoop_step_ok c lib comp rest acc raw d hl hd] at h
        rw [List.cons_append, getPodOverridesLoop_step_ok c lib comp _ acc raw d hl hd]
        exact ih _ out h

/-- C4. When every override attribute of the workspace decodes, `getPodOverrides` succeeds
and returns one fragment per raw override attribute, in the order: components that carry the
attribute in declaration order, then the workspace-level attribute when present; each
fragment is the decoded attribute with containers, init containers and volumes cleared. -/
theorem getPodOverrides_order {Raw Bytes : Type} (c : Constants) (lib : Codec Raw Bytes)
    (workspace : DevWorkspaceWithConfig Raw)
    (hc : ∀ comp ∈ workspace.Components, overrideDecodes c lib comp.Attributes = true)
    (hw : overrideDecodes c lib workspace.Attributes = true) :
    (getPodOverrides c lib workspace).2 = none ∧
    List.Forall₂ (fun raw o => ∃ d, lib.Decode raw = .ok d ∧ o = clearProtected d)
      (workspace.Components.filterMap (fun component =>
          component.Attributes.lookup c.PodOverridesAttribute) ++
        (workspace.Attributes.lookup c.PodOverridesAttribute).toList)
      (getPodOverrides c lib workspace).1 := by
  obtain ⟨frags, hf, hr⟩ := getPodOverridesLoop_ok c lib workspace.Components hc []
  simp only [List.nil_append] at hf
  unfold getPodOverrides
  simp only [hf]
  cases hl : workspace.Attributes.lookup c.PodOverridesAttribute with
  | none => simpa [Attributes.Exists, hl] using hr
  | some raw =>
    obtain ⟨d, hd⟩ := overrideDecodes_some hw hl
    simp only [Attributes.Exists, Attributes.GetInto, hl, hd, Option.isSome_some, if_true,
      Option.toList_some, true_and]
    exact List.rel_append hr (List.Forall₂.cons ⟨d, hd, rfl⟩ List.Forall₂.nil)

theorem getPodOverrides_order_witness :
    (getPodOverrides sampleConstants specCodec intrudingWorkspace).2 = none ∧
    List.Forall₂
      (fun raw o => ∃ d, specCodec.Decode raw = .ok d ∧ o = clearProtected d)
      (intrudingWorkspace.Components.filterMap (fun component =>
          component.Attributes.lookup sampleConstants.PodOverridesAttribute) ++
        (intrudingWorkspace.Attributes.lookup sampleConstants.PodOverridesAttribute).toList)
      (getPodOverrides sampleConstants specCodec intrudingWorkspace).1 :=
  getPodOverrides_order sampleConstants specCodec intrudingWorkspace (by decide) (by decide)

theorem getPodOverridesLoop_first_failure {Raw Bytes : Type} (c : Constants)
    (lib : Codec Raw Bytes) (pre : List (Component Raw)) (comp : Component Raw)
    (post : List (Component Raw)) (raw : Raw) (e : String)
    (hpre : ∀ p ∈ pre, overrideDecodes c lib p.Attributes = true)
    (hl : comp.Attributes.lookup c.PodOverridesAttribute = some raw)
    (hd : lib.Decode raw = .error e) (acc : List PodTemplateSpec) :
    getPodOverridesLoop c lib (pre ++ comp :: post) acc
      = ([], some ("failed to parse " ++ c.PodOverridesAttribute ++ " attribute on component "
          ++ comp.Name ++ ": " ++ e)) := by
  obtain ⟨frags, hf, _⟩ := getPodOverridesLoop_ok c lib pre hpre acc
  rw [getPodOverridesLoop_append_ok c lib pre (comp :: post) acc _ hf]
  exact getPodOverridesLoop_step_error c lib comp post _ raw e hl hd

/-- C5. A decode failure aborts the collection. If the first component whose override fails
to decode is `comp` (every component before it decodes), `getPodOverrides` returns no
fragment and the error that names `comp`, whatever the later components and the workspace
carry; if all component overrides decode and the workspace-level one fails, it returns no
fragment and the error that names the workspace. `ApplyPodOverrides` returns the same
error and no deployment. -/
theorem getPodOverrides_decode_failure {Raw Bytes : Type} (c : Constants)
    (lib : Codec Raw Bytes) (workspace : DevWorkspaceWithConfig Raw) (deployment : Deployment)
    (raw : Raw) (e : String) (hd : lib.Decode raw = .error e) :
    (∀ pre comp post, workspace.Components = pre ++ comp :: post →
      (∀ p ∈ pre, overrideDecodes c lib p.Attributes = true) →
      comp.Attributes.lookup c.PodOverridesAttribute = some raw →
      getPodOverrides c lib workspace
        = ([], some ("failed to parse " ++ c.PodOverridesAttribute
            ++ " attribute on component " ++ comp.Name ++ ": " ++ e)) ∧
      ApplyPodOverrides c lib workspace deployment
        = (none, some ("failed to parse " ++ c.PodOverridesAttribute
            ++ " attribute on component " ++ comp.Name ++ ": " ++ e))) ∧
    ((∀ p ∈ workspace.Components, overrideDecodes c lib p.Attributes = true) →
      workspace.Attributes.lookup c.PodOverridesAttribute = some raw →
      getPodOverrides c lib workspace
        = ([], some ("failed to parse " ++ c.PodOverridesAttribute
            ++ " attribute for workspace: " ++ e)) ∧
      ApplyPodOverrides c lib workspace deployment
        = (none, some ("failed to parse " ++ c.PodOverridesAttribute
            ++ " attribute for workspace: " ++ e))) := by
  constructor
  · intro pre comp post hsplit hpre hl
    have hget : getPodOverrides c lib workspace
        = ([], some ("failed to parse " ++ c.PodOverridesAttribute
            ++ " attribute on component " ++ comp.Name ++ ": " ++ e)) := by
      unfold getPodOverrides
      rw [hsplit, getPodOverridesLoop_first_failure c lib pre comp post raw e hpre hl hd []]
    exact ⟨hget, by unfold ApplyPodOverrides; rw [hget]⟩
  · intro hall hl
    obtain ⟨frags, hf, _⟩ := getPodOverridesLoop_ok c lib workspace.Components hall []
    have hget : getPodOverrides c lib workspace
        = ([], some ("failed to parse " ++ c.PodOverridesAttribute
            ++ " attribute for workspace: " ++ e)) := by
      unfold getPodOverrides
      simp [hf, Attributes.Exists, Attributes.GetInto, hl, hd]
    exact ⟨hget, by unfold ApplyPodOverrides; rw [hget]⟩

theorem getPodOverrides_decode_failure_witness :
    (getPodOverrides sampleConstants specCodec brokenComponentWorkspace
        = ([], some "failed to parse pod-overrides attribute on component editor: unexpected end") ∧
      ApplyPodOverrides sampleConstants specCodec brokenComponentWorkspace mainDeployment
        = (none,
            some "failed to parse pod-overrides attribute on component editor: unexpected end")) ∧
    (getPodOverrides sampleConstants specCodec brokenGlobalWorkspace
        = ([], some "failed to parse pod-overrides attribute for workspace: unexpected end") ∧
      ApplyPodOverrides sampleConstants specCodec brokenGlobalWorkspace mainDeployment
        = (none, some "failed to parse pod-overrides attribute for workspace: unexpected end")) :=
  ⟨(getPodOverrides_decode_failure sampleConstants specCodec brokenComponentWorkspace
      mainDeployment (.malformed "unexpected end") "unexpected end" rfl).1
      [{ Name := "tools"
         Attributes :=
           [("pod-overrides", .document { emptyDoc with restartPolicy := some "Always" })] }]
      { Name := "editor", Attributes := [("pod-overrides", .malformed "unexpected end")] }
      [{ Name := "late", Attributes := [("pod-overrides", .malformed "bad token")] }]
      rfl (by decide) (by decide),
   (getPodOverrides_decode_failure sampleConstants specCodec brokenGlobalWorkspace
      mainDeployment (.malformed "unexpected end") "unexpected end" rfl).2
      (by decide) (by decide)⟩

/-! ### Composition with the modelled codec -/

theorem applyOverridesLoop_specCodec (overrides : List PodTemplateSpec) :
    ∀ bytes : TemplateDoc, applyOverridesLoop specCodec overrides bytes
      = .ok (overrides.foldl (fun b o => strategicMerge b (marshalDoc o)) bytes) := by
  induction overrides with
  | nil => intro bytes; rfl
  | cons o rest ih => intro bytes; exact ih (strategicMerge bytes (marshalDoc o))

theorem ApplyPodOverrides_specCodec (c : Constants) (workspace : DevWorkspaceWithConfig RawJSON)
    (deployment : Deployment) (overrides : List PodTemplateSpec)
    (h : getPodOverrides c specCodec workspace = (overrides, none)) :
    ∃ patched, ApplyPodOverrides c specCodec workspace deployment = (some patched, none) ∧
      patched.Template.Spec.Containers = deployment.Template.Spec.Containers ∧
      ∀ f : ScalarField, f.get patched.Template
        = f.get (unmarshalDoc (overrides.foldl (fun b o => strategicMerge b (marshalDoc o))
            (marshalDoc deployment.Template))) := by
  unfold ApplyPodOverrides
  simp only [h]
  have hm : specCodec.Marshal deployment.Template = .ok (marshalDoc deployment.Template) := rfl
  simp only [hm, applyOverridesLoop_specCodec]
  refine ⟨_, rfl, rfl, ?_⟩
  intro f; cases f <;> rfl

theorem ScalarField.get_merge (f : ScalarField) (b : TemplateDoc) (o : PodTemplateSpec) :
    f.get (unmarshalDoc (strategicMerge b (marshalDoc o)))
      = if f.get o = "" then f.get (unmarshalDoc b) else f.get o := by
  cases f
  · by_cases h : o.Spec.RestartPolicy = "" <;>
      simp [ScalarField.get, unmarshalDoc, strategicMerge, marshalDoc, omitEmptyString,
        mergeScalar, h]
  · by_cases h : o.Spec.ServiceAccountName = "" <;>
      simp [ScalarField.get, unmarshalDoc, strategicMerge, marshalDoc, omitEmptyString,
        mergeScalar, h]
  · by_cases h : o.Spec.PriorityClassName = "" <;>
      simp [ScalarField.get, unmarshalDoc, strategicMerge, marshalDoc, omitEmptyString,
        mergeScalar, h]

theorem ScalarField.get_clearProtected (f : ScalarField) (d : PodTemplateSpec) :
    f.get (clearProtected d) = f.get d := by
  cases f <;> rfl

theorem ScalarField.get_fold_unset (f : ScalarField) (post : List PodTemplateSpec)
    (h : ∀ o ∈ post, f.get o = "") :
    ∀ b : TemplateDoc,
      f.get (unmarshalDoc (post.foldl (fun b o => strategicMerge b (marshalDoc o)) b))
        = f.get (unmarshalDoc b) := by
  induction post with
  | nil => intro b; rfl
  | cons o rest ih =>
    intro b
    rw [List.foldl_cons, ih (fun x hx => h x (List.mem_cons_of_mem _ hx)),
      ScalarField.get_merge, if_pos (h o (List.mem_cons_self _ _))]

theorem ScalarField.get_fold_last_set (f : ScalarField) (pre post : List PodTemplateSpec)
    (o : PodTemplateSpec) (hset : f.get o ≠ "") (h : ∀ x ∈ post, f.get x = "")
    (b : TemplateDoc) :
    f.get (unmarshalDoc ((pre ++ o :: post).foldl
        (fun b o => strategicMerge b (marshalDoc o)) b)) = f.get o := by
  rw [List.foldl_append, List.foldl_cons, ScalarField.get_fold_unset f post h,
    ScalarField.get_merge, if_neg hset]

theorem getPodOverridesLoop_all {Raw Bytes : Type} (c : Constants) (lib : Codec Raw Bytes)
    (P : PodTemplateSpec → Prop) (components : List (Component Raw))
    (h : ∀ p ∈ components, ∀ r, p.Attributes.lookup c.PodOverridesAttribute = some r →
      ∃ d, lib.Decode r = .ok d ∧ P d) :
    ∀ acc : List PodTemplateSpec, ∃ frags,
      getPodOverridesLoop c lib components acc = (acc ++ frags, none) ∧
      ∀ o ∈ frags, ∃ d, P d ∧ o = clearProtected d := by
  induction components with
  | nil => intro acc; exact ⟨[], by simp [getPodOverridesLoop]⟩
  | cons comp rest ih =>
    intro acc
    have hrest := ih (fun x hx => h x (List.mem_cons_of_mem _ hx))
    cases hl : comp.Attributes.lookup c.PodOverridesAttribute with
    | none =>
      obtain ⟨frags, hf, hr⟩ := hrest acc
      exact ⟨frags, by rw [getPodOverridesLoop_step_none c lib comp rest acc hl, hf], hr⟩
    | some raw =>
      obtain ⟨d, hd, hP⟩ := h comp (List.mem_cons_self _ _) raw hl
      obtain ⟨frags, hf, hr⟩ := hrest (acc ++ [clearProtected d])
      refine ⟨clearProtected d :: frags, ?_, ?_⟩
      · rw [getPodOverridesLoop_step_ok c lib comp rest acc raw d hl hd, hf]; simp
      · intro o ho
        rcases List.mem_cons.mp ho with h1 | h1
        · exact ⟨d, hP, h1⟩
        · exact hr o h1

/-- C3. Later fragments win, with the codec and strategic merge as the specification
describes them. Let an override attribute decode to `B`, which sets the scalar field `f`.
If it is the workspace-level override (and the component overrides decode), the pod template
returned by `ApplyPodOverrides` carries the value of `B` for `f`, whatever the component
overrides set. If it is the override of a component and no override collected after it
(later components, workspace) sets `f`, the result carries the value of `B`, whatever the
earlier components set. The container list is the one of the baseline. -/
theorem ApplyPodOverrides_later_wins (c : Constants)
    (workspace : DevWorkspaceWithConfig RawJSON) (deployment : Deployment) (f : ScalarField)
    (raw : RawJSON) (B : PodTemplateSpec) (hB : specCodec.Decode raw = .ok B)
    (hset : f.get B ≠ "") :
    ((∀ p ∈ workspace.Components, overrideDecodes c specCodec p.Attributes = true) →
      workspace.Attributes.lookup c.PodOverridesAttribute = some raw →
      ∃ patched, ApplyPodOverrides c specCodec workspace deployment = (some patched, none) ∧
        f.get patched.Template = f.get B ∧
        patched.Template.Spec.Containers = deployment.Template.Spec.Containers) ∧
    (∀ pre comp post, workspace.Components = pre ++ comp :: post →
      (∀ p ∈ pre, overrideDecodes c specCodec p.Attributes = true) →
      comp.Attributes.lookup c.PodOverridesAttribute = some raw →
      (∀ p ∈ post, ∀ r, p.Attributes.lookup c.PodOverridesAttribute = some r →
        ∃ d, specCodec.Decode r = .ok d ∧ f.get d = "") →
      (∀ r, workspace.Attributes.lookup c.PodOverridesAttribute = some r →
        ∃ d, specCodec.Decode r = .ok d ∧ f.get d = "") →
      ∃ patched, ApplyPodOverrides c specCodec workspace deployment = (some patched, none) ∧
        f.get patched.Template = f.get B ∧
        patched.Template.Spec.Containers = deployment.Template.Spec.Containers) := by
  have hsetc : f.get (clearProtected B) ≠ "" := by
    rw [ScalarField.get_clearProtected]; exact hset
  constructor
  · intro hall hl
    obtain ⟨frags, hf, _⟩ := getPodOverridesLoop_ok c specCodec workspace.Components hall []
    have hget : getPodOverrides c specCodec workspace
        = (frags ++ [clearProtected B], none) := by
      unfold getPodOverrides
      simp [hf, Attributes.Exists, Attributes.GetInto, hl, hB]
    obtain ⟨patched, hp, hcont, hfield⟩ :=
      ApplyPodOverrides_specCodec c workspace deployment _ hget
    refine ⟨patched, hp, ?_, hcont⟩
    rw [hfield f, ScalarField.get_fold_last_set f frags [] _ hsetc (by simp),
      ScalarField.get_clearProtected]
  · intro pre comp post hsplit hpre hl hpost hws
    obtain ⟨fpre, hfpre, _⟩ := getPodOverridesLoop_ok c specCodec pre hpre []
    obtain ⟨fpost, hfpost, hunset⟩ := getPodOverridesLoop_all c specCodec
      (fun d => f.get d = "") post hpost ([] ++ fpre ++ [clearProtected B])
    have hloop : getPodOverridesLoop c specCodec workspace.Components []
        = (fpre ++ clearProtected B :: fpost, none) := by
      rw [hsplit, getPodOverridesLoop_append_ok c specCodec pre (comp :: post) [] _ hfpre,
        getPodOverridesLoop_step_ok c specCodec comp post _ raw B hl hB, hfpost]
      simp
    have hpostunset : ∀ x ∈ fpost, f.get x = "" := by
      intro x hx
      obtain ⟨d, hd, rfl⟩ := hunset x hx
      rw [ScalarField.get_clearProtected]; exact hd
    cases hlw : workspace.Attributes.lookup c.PodOverridesAttribute with
    | none =>
      have hget : getPodOverrides c specCodec workspace
          = (fpre ++ clearProtected B :: fpost, none) := by
        unfold getPodOverrides
        simp [hloop, Attributes.Exists, hlw]
      obtain ⟨patched, hp, hcont, hfield⟩ :=
        ApplyPodOverrides_specCodec c workspace deployment _ hget
      refine ⟨patched, hp, ?_, hcont⟩
      rw [hfield f, ScalarField.get_fold_last_set f fpre fpost _ hsetc hpostunset,
        ScalarField.get_clearProtected]
    | some r =>
      obtain ⟨d, hd, hdunset⟩ := hws r hlw
      have hget : getPodOverrides c specCodec workspace
          = (fpre ++ clearProtected B :: (fpost ++ [clearProtected d]), none) := by
        unfold getPodOverrides
        simp [hloop, Attributes.Exists, Attributes.GetInto, hlw, hd]
      obtain ⟨patched, hp, hcont, hfield⟩ :=
        ApplyPodOverrides_specCodec c workspace deployment _ hget
      refine ⟨patched, hp, ?_, hcont⟩
      rw [hfield f, ScalarField.get_fold_last_set f fpre (fpost ++ [clearProtected d]) _ hsetc
        ?_, ScalarField.get_clearProtected]
      intro x hx
      rcases List.mem_append.mp hx with h1 | h1
      · exact hpostunset x h1
      · simp at h1; subst h1
        rw [ScalarField.get_clearProtected]; exact hdunset

theorem ApplyPodOverrides_later_wins_witness :
    (∃ patched,
      ApplyPodOverrides sampleConstants specCodec restartWorkspace mainDeployment
        = (some patched, none) ∧
      patched.Template.Spec.RestartPolicy = "OnFailure" ∧
      patched.Template.Spec.Containers
        = [{ Name := "main", Image := "quay.io/devfile/universal" }]) ∧
    (∃ patched,
      ApplyPodOverrides sampleConstants specCodec twoComponentWorkspace mainDeployment
        = (some patched, none) ∧
      patched.Template.Spec.RestartPolicy = "Never" ∧
      patched.Template.Spec.Containers
        = [{ Name := "main", Image := "quay.io/devfile/universal" }]) :=
  ⟨(ApplyPodOverrides_later_wins sampleConstants restartWorkspace mainDeployment
      .restartPolicy (.document { emptyDoc with restartPolicy := some "OnFailure" })
      (unmarshalDoc { emptyDoc with restartPolicy := some "OnFailure" }) rfl (by decide)).1
      (by decide) (by decide),
   (ApplyPodOverrides_later_wins sampleConstants twoComponentWorkspace mainDeployment
      .restartPolicy (.document { emptyDoc with restartPolicy := some "Never" })
      (unmarshalDoc { emptyDoc with restartPolicy := some "Never" }) rfl (by decide)).2
      [{ Name := "first"
         Attributes :=
           [("pod-overrides", .document { emptyDoc with restartPolicy := some "Always" })] }]
      { Name := "second"
        Attributes :=
          [("pod-overrides", .document { emptyDoc with restartPolicy := some "Never" })] }
      [{ Name := "third"
         Attributes :=
           [("pod-overrides",
             .document { emptyDoc with serviceAccountName := some "builder" })] }]
      rfl (by decide) (by decide)
      (by
        intro p hp r hr
        simp only [List.mem_singleton] at hp
        subst hp
        have hr2 : r = .document { emptyDoc with serviceAccountName := some "builder" } := by
          have : some (RawJSON.document { emptyDoc with serviceAccountName := some "builder" })
              = some r := hr
          exact (Option.some.inj this).symm
        subst hr2
        exact ⟨_, rfl, rfl⟩)
      (by intro r hr; cases hr)⟩

/-! ## Properties of `secret.go` -/

/-! ### `path.Join` on ordinary names -/

theorem ordinaryElem_iff (e : List Char) :
    ordinaryElem e = true ↔ e ≠ [] ∧ '/' ∉ e ∧ e ≠ ['.'] ∧ e ≠ ['.', '.'] := by
  simp [ordinaryElem, and_assoc]

theorem splitSlash_ne_nil (cs : List Char) : splitSlash cs ≠ [] := by
  induction cs with
  | nil => simp [splitSlash]
  | cons ch rest ih =>
    unfold splitSlash
    split
    · simp
    · split <;> simp

theorem splitSlash_noSlash (cs : List Char) (h : '/' ∉ cs) : splitSlash cs = [cs] := by
  induction cs with
  | nil => rfl
  | cons ch rest ih =>
    have h1 : ch ≠ '/' := fun e => h (by simp [e])
    have h2 : '/' ∉ rest := fun e => h (List.mem_cons_of_mem _ e)
    simp [splitSlash, ih h2, h1]

theorem splitSlash_append (k : List Char) (hk : '/' ∉ k) :
    ∀ cs : List Char, splitSlash (cs ++ '/' :: k) = splitSlash cs ++ [k] := by
  intro cs
  induction cs with
  | nil => simp [splitSlash, splitSlash_noSlash k hk]
  | cons ch rest ih =>
    rw [List.cons_append]
    unfold splitSlash
    rw [ih]
    cases hs : splitSlash rest with
    | nil => exact absurd hs (splitSlash_ne_nil rest)
    | cons e es => by_cases hc : ch = '/' <;> simp [hc]

theorem intercalate_splitSlash (cs : List Char) :
    List.intercalate ['/'] (splitSlash cs) = cs := by
  induction cs with
  | nil => rfl
  | cons ch rest ih =>
    unfold splitSlash
    cases hs : splitSlash rest with
    | nil => exact absurd hs (splitSlash_ne_nil rest)
    | cons e es =>
      rw [hs] at ih
      by_cases hc : ch = '/'
      · simp only [hc, if_true]
        rw [← ih]
        simp [List.intercalate, List.intersperse]
      · simp only [hc, if_false]
        rw [← ih]
        cases es <;> simp [List.intercalate, List.intersperse]

theorem intercalate_append_singleton (es : List (List Char)) (hes : es ≠ []) (k : List Char) :
    List.intercalate ['/'] (es ++ [k]) = List.intercalate ['/'] es ++ '/' :: k := by
  induction es with
  | nil => exact absurd rfl hes
  | cons e rest ih =>
    cases rest with
    | nil => simp [List.intercalate, List.intersperse]
    | cons e2 rest2 =>
      have := ih (by simp)
      simp [List.intercalate, List.intersperse] at this ⊢
      exact this

theorem cleanElems_ordinary (es : List (List Char)) (h : ∀ e ∈ es, ordinaryElem e = true) :
    ∀ out : List (List Char), cleanElems true es out = out.reverse ++ es := by
  induction es with
  | nil => intro out; simp [cleanElems]
  | cons e rest ih =>
    intro out
    obtain ⟨h1, _, h3, h4⟩ := (ordinaryElem_iff e).mp (h e (List.mem_cons_self _ _))
    unfold cleanElems
    simp only [h1, h3, h4, or_self, if_false]
    rw [ih (fun x hx => h x (List.mem_cons_of_mem _ hx))]
    simp

theorem pathJoin_cleanAbsolute (p k : String) (hp : cleanAbsolute p = true)
    (hk : ordinaryName k = true) :
    pathJoin [p, k] = p ++ "/" ++ k := by
  obtain ⟨k1, k2, k3, k4⟩ := (ordinaryElem_iff k.data).mp hk
  unfold cleanAbsolute at hp
  cases hpd : p.data with
  | nil => simp [hpd] at hp
  | cons ch cs =>
    rw [hpd] at hp
    by_cases hch : ch = '/'
    · subst hch
      simp only at hp
      have hall : ∀ e ∈ splitSlash cs, ordinaryElem e = true := by
        simpa [List.all_eq_true] using hp
      have hpne : p ≠ "" := fun e => by simp [e] at hpd
      have hkne : k ≠ "" := fun e => k1 (by simp [e])
      have hf : List.filter (fun e => decide (e ≠ "")) [p, k] = [p, k] := by
        simp [List.filter, hpne, hkne]
      have hint : "/".intercalate [p, k] = String.mk ('/' :: (cs ++ '/' :: k.data)) := by
        apply String.ext
        simp [String.intercalate, String.intercalate.go, String.data_append, hpd]
      unfold pathJoin
      rw [hf]
      simp only [hint, pathClean]
      have hsplit : splitSlash ('/' :: (cs ++ '/' :: k.data))
          = [] :: (splitSlash cs ++ [k.data]) := by
        simp only [splitSlash]
        rw [splitSlash_append k.data k2]
        cases hs : splitSlash cs with
        | nil => exact absurd hs (splitSlash_ne_nil cs)
        | cons e es => simp
      have hall2 : ∀ e ∈ splitSlash cs ++ [k.data], ordinaryElem e = true := by
        intro e he
        rcases List.mem_append.mp he with h | h
        · exact hall e h
        · simp at h; subst h; exact hk
      rw [hsplit]
      have hclean : cleanElems true ([] :: (splitSlash cs ++ [k.data])) []
          = splitSlash cs ++ [k.data] := by
        unfold cleanElems
        simp only [true_or, if_true]
        rw [cleanElems_ordinary _ hall2]
        simp
      simp only [decide_True, hclean, if_true]
      rw [intercalate_append_singleton _ (splitSlash_ne_nil cs), intercalate_splitSlash]
      apply String.ext
      simp [String.data_append, hpd]
    · cases ch; simp_all

theorem pathJoin_default (name : String) (hn : ordinaryName name = true) :
    pathJoin ["/etc/", "secret/", name] = "/etc/secret/" ++ name ∧
    cleanAbsolute ("/etc/secret/" ++ name) = true := by
  obtain ⟨h2, h1, h3, h4⟩ := (ordinaryElem_iff name.data).mp hn
  have hne : name ≠ "" := fun e => h2 (by simp [e])
  have hint : "/".intercalate ["/etc/", "secret/", name]
      = String.mk ('/' :: 'e' :: 't' :: 'c' :: '/' :: '/' :: 's' :: 'e' :: 'c' :: 'r' :: 'e'
          :: 't' :: '/' :: '/' :: name.data) := by
    apply String.ext
    simp [String.intercalate, String.intercalate.go, String.data_append]
  have hf : List.filter (fun e => decide (e ≠ "")) ["/etc/", "secret/", name]
      = ["/etc/", "secret/", name] := by
    simp [List.filter, hne]
  constructor
  · unfold pathJoin
    rw [hf]
    simp only [hint, pathClean]
    simp [splitSlash, splitSlash_noSlash _ h1, cleanElems, h2, h3, h4, List.intercalate]
    apply String.ext
    simp [String.data_append]
  · have hd : ("/etc/secret/" ++ name).data
        = '/' :: 'e' :: 't' :: 'c' :: '/' :: 's' :: 'e' :: 'c' :: 'r' :: 'e' :: 't' :: '/'
          :: name.data := by
      simp [String.data_append]
    unfold cleanAbsolute
    rw [hd]
    simp [splitSlash, splitSlash_noSlash _ h1, ordinaryElem, h2, h1, h3, h4]

/-! ### The loop over the secrets -/

theorem insertAt_perm {α : Type} (a : α) (l : List α) :
    ∀ n : Nat, (insertAt n a l).Perm (a :: l) := by
  induction l with
  | nil => intro n; cases n <;> simp [insertAt]
  | cons x xs ih =>
    intro n
    cases n with
    | zero => simp [insertAt]
    | succ k =>
      simp only [insertAt]
      exact ((ih k).cons x).trans (List.Perm.swap a x xs)

theorem rangeOrder_perm {α : Type} (l : List α) :
    ∀ pick : Nat, (rangeOrder pick l).Perm l := by
  induction l with
  | nil => intro pick; simp [rangeOrder]
  | cons x xs ih =>
    intro pick
    simp only [rangeOrder]
    exact (insertAt_perm x _ _).trans ((ih _).cons x)

theorem secretStep_append (c : Constants) (order : Secret → Nat) (acc : automountResources)
    (secret : Secret) :
    secretStep c order acc secret
      = appendResources acc (secretStep c order
          { Volumes := [], VolumeMounts := [], EnvFromSource := [] } secret) := by
  unfold secretStep appendResources
  simp only
  split
  · simp
  · split <;> simp

theorem foldl_secretStep_append (c : Constants) (order : Secret → Nat)
    (secrets : List Secret) :
    ∀ acc : automountResources, secrets.foldl (secretStep c order) acc
      = appendResources acc (secretsLoop c order secrets) := by
  induction secrets with
  | nil => intro acc; simp [secretsLoop, appendResources]
  | cons s rest ih =>
    intro acc
    unfold secretsLoop
    rw [List.foldl_cons, List.foldl_cons, ih, ih (secretStep c order _ s),
      secretStep_append c order acc s]
    simp [appendResources, List.append_assoc]

theorem secretsLoop_split (c : Constants) (order : Secret → Nat) (pre post : List Secret)
    (secret : Secret) :
    secretsLoop c order (pre ++ secret :: post)
      = appendResources (appendResources (secretsLoop c order pre)
          (secretStep c order { Volumes := [], VolumeMounts := [], EnvFromSource := [] }
            secret)) (secretsLoop c order post) := by
  have h1 : secretsLoop c order (pre ++ secret :: post)
      = (secret :: post).foldl (secretStep c order) (secretsLoop c order pre) := by
    unfold secretsLoop; rw [List.foldl_append]
  rw [h1, List.foldl_cons, foldl_secretStep_append, secretStep_append]

theorem secretStep_env (c : Constants) (order : Secret → Nat) (acc : automountResources)
    (secret : Secret)
    (henv : mapIndex secret.Annotations c.DevWorkspaceMountAsAnnotation = "env") :
    secretStep c order acc secret
      = { acc with EnvFromSource := acc.EnvFromSource ++ [{ SecretRef := some secret.Name }] } := by
  simp [secretStep, henv, getAutoMountSecretEnvFromSource]

theorem secretStep_subpath (c : Constants) (order : Secret → Nat) (acc : automountResources)
    (secret : Secret)
    (hsub : mapIndex secret.Annotations c.DevWorkspaceMountAsAnnotation = "subpath") :
    secretStep c order acc secret
      = { acc with
          Volumes := acc.Volumes ++ [getAutoMountVolumeWithSecret c secret.Name]
          VolumeMounts := acc.VolumeMounts ++
            getAutoMountSecretSubpathVolumeMounts c (order secret) (secretMountPath c secret)
              secret } := by
  have hne : ("subpath" : String) ≠ "env" := by decide
  simp [secretStep, hsub, hne, secretMountPath]

theorem secretStep_file (c : Constants) (order : Secret → Nat) (acc : automountResources)
    (secret : Secret)
    (hne : mapIndex secret.Annotations c.DevWorkspaceMountAsAnnotation ≠ "env")
    (hns : mapIndex secret.Annotations c.DevWorkspaceMountAsAnnotation ≠ "subpath") :
    secretStep c order acc secret
      = { acc with
          Volumes := acc.Volumes ++ [getAutoMountVolumeWithSecret c secret.Name]
          VolumeMounts := acc.VolumeMounts ++
            [getAutoMountSecretVolumeMount c (secretMountPath c secret) secret.Name] } := by
  simp [secretStep, hne, hns, secretMountPath]

theorem secretMountPath_absent (c : Constants) (secret : Secret)
    (h : secret.Annotations.lookup c.DevWorkspaceMountPathAnnotation = none) :
    secretMountPath c secret = pathJoin ["/etc/", "secret/", secret.Name] := by
  simp [secretMountPath, mapIndex, h]

theorem secretMountPath_declared (c : Constants) (secret : Secret) (declared : String)
    (h : secret.Annotations.lookup c.DevWorkspaceMountPathAnnotation = some declared)
    (hne : declared ≠ "") :
    secretMountPath c secret = declared := by
  simp [secretMountPath, mapIndex, h, hne]

/-- C6. A listed secret whose mount-mode annotation is `env` contributes exactly one
env-from source that references the secret by name, and no volume and no volume mount: the
result of `getDevWorkspaceSecrets` is what the secrets listed before it contribute, then
that single env-from source, then what the secrets listed after it contribute. The
mount-path annotation and the data of the secret play no role. -/
theorem getDevWorkspaceSecrets_env (c : Constants) (order : Secret → Nat) (ns : String)
    (api : ClusterAPI) (pre : List Secret) (secret : Secret) (post : List Secret)
    (hlist : api.List ns (c.DevWorkspaceMountLabel, "true") = .ok (pre ++ secret :: post))
    (henv : mapIndex secret.Annotations c.DevWorkspaceMountAsAnnotation = "env") :
    getDevWorkspaceSecrets c order ns api
      = (some (appendResources (appendResources (secretsLoop c order pre)
          { Volumes := [], VolumeMounts := [],
            EnvFromSource := [{ SecretRef := some secret.Name }] })
          (secretsLoop c order post)), none) := by
  unfold getDevWorkspaceSecrets
  rw [hlist]
  simp only
  rw [secretsLoop_split, secretStep_env c order _ secret henv]
  rfl

theorem getDevWorkspaceSecrets_env_witness :
    getDevWorkspaceSecrets sampleConstants (fun _ => 0) "user-ns" (listerOf [dbCreds])
      = (some { Volumes := [], VolumeMounts := [],
                EnvFromSource := [{ SecretRef := some "db-creds" }] }, none) :=
  getDevWorkspaceSecrets_env sampleConstants (fun _ => 0) "user-ns" (listerOf [dbCreds])
    [] dbCreds [] rfl (by decide)

/-- C7. A listed secret whose mount-mode annotation is `subpath` contributes exactly one
volume, the secret volume of the whole secret, and a list of mounts that is a rearrangement
of one read-only mount per data key `k`, with mount path `path.Join(mountPath, k)` and
sub-path `k`; so there are as many mounts as data keys. `mountPath` is the mount-path
annotation, or `path.Join("/etc/", "secret/", name)` when the annotation is absent, which is
`/etc/secret/<name>` for an ordinary name; for a clean absolute `mountPath` and an ordinary
key, `path.Join(mountPath, k)` is `<mountPath>/<k>`. This holds for every iteration order
of the data map. -/
theorem getDevWorkspaceSecrets_subpath (c : Constants) (order : Secret → Nat) (ns : String)
    (api : ClusterAPI) (pre : List Secret) (secret : Secret) (post : List Secret)
    (hlist : api.List ns (c.DevWorkspaceMountLabel, "true") = .ok (pre ++ secret :: post))
    (hsub : mapIndex secret.Annotations c.DevWorkspaceMountAsAnnotation = "subpath") :
    (∃ mounts,
      getDevWorkspaceSecrets c order ns api
        = (some (appendResources (appendResources (secretsLoop c order pre)
            { Volumes := [{ Name := c.AutoMountSecretVolumeName secret.Name
                            Secret := some { SecretName := secret.Name
                                             DefaultMode := some 0o640 } }]
              VolumeMounts := mounts
              EnvFromSource := [] })
            (secretsLoop c order post)), none) ∧
      mounts.Perm (secret.Data.map (fun kv =>
        { Name := c.AutoMountSecretVolumeName secret.Name
          ReadOnly := true
          MountPath := pathJoin [secretMountPath c secret, kv.1]
          SubPath := kv.1 })) ∧
      mounts.length = secret.Data.length) ∧
    (secret.Annotations.lookup c.DevWorkspaceMountPathAnnotation = none →
      secretMountPath c secret = pathJoin ["/etc/", "secret/", secret.Name]) ∧
    (∀ declared, secret.Annotations.lookup c.DevWorkspaceMountPathAnnotation = some declared →
      declared ≠ "" → secretMountPath c secret = declared) ∧
    (ordinaryName secret.Name = true →
      pathJoin ["/etc/", "secret/", secret.Name] = "/etc/secret/" ++ secret.Name) ∧
    (cleanAbsolute (secretMountPath c secret) = true →
      ∀ kv ∈ secret.Data, ordinaryName kv.1 = true →
        pathJoin [secretMountPath c secret, kv.1] = secretMountPath c secret ++ "/" ++ kv.1) := by
  refine ⟨⟨getAutoMountSecretSubpathVolumeMounts c (order secret) (secretMountPath c secret)
    secret, ?_, ?_, ?_⟩, secretMountPath_absent c secret, secretMountPath_declared c secret,
    fun hn => (pathJoin_default secret.Name hn).1,
    fun hp kv _ hk => pathJoin_cleanAbsolute _ kv.1 hp hk⟩
  · unfold getDevWorkspaceSecrets
    rw [hlist]
    simp only
    rw [secretsLoop_split, secretStep_subpath c order _ secret hsub]
    rfl
  · unfold getAutoMountSecretSubpathVolumeMounts
    have h := (rangeOrder_perm (secret.Data.map Prod.fst) (order secret)).map
      (fun secretKey : String =>
        ({ Name := c.AutoMountSecretVolumeName secret.Name
           ReadOnly := true
           MountPath := pathJoin [secretMountPath c secret, secretKey]
           SubPath := secretKey } : VolumeMount))
    simpa [List.map_map, Function.comp_def] using h
  · unfold getAutoMountSecretSubpathVolumeMounts
    rw [List.length_map, (rangeOrder_perm _ _).length_eq, List.length_map]

theorem getDevWorkspaceSecrets_subpath_witness :
    (∃ mounts,
      getDevWorkspaceSecrets sampleConstants (fun _ => 1) "user-ns" (listerOf [tlsCerts])
        = (some { Volumes := [{ Name := "automount-secret-tls-certs"
                                Secret := some { SecretName := "tls-certs"
                                                 DefaultMode := some 416 } }]
                  VolumeMounts := mounts
                  EnvFromSource := [] }, none) ∧
      mounts.Perm
        [{ Name := "automount-secret-tls-certs", ReadOnly := true,
           MountPath := "/etc/secret/tls-certs/cert.pem", SubPath := "cert.pem" },
         { Name := "automount-secret-tls-certs", ReadOnly := true,
           MountPath := "/etc/secret/tls-certs/key.pem", SubPath := "key.pem" }] ∧
      mounts.length = 2) ∧
    secretMountPath sampleConstants tlsCerts = "/etc/secret/tls-certs" :=
  ⟨by
    obtain ⟨mounts, h1, h2, h3⟩ :=
      (getDevWorkspaceSecrets_subpath sampleConstants (fun _ => 1) "user-ns"
        (listerOf [tlsCerts]) [] tlsCerts [] rfl (by decide)).1
    refine ⟨mounts, ?_, h2, h3⟩
    rw [h1]
    simp [appendResources, secretsLoop]
    decide,
   by decide⟩

/-- C8. A listed secret whose mount-mode annotation is neither `env` nor `subpath` (absent,
`file`, or any other value) raises no error and contributes one volume, the secret volume of
the whole secret, and exactly one read-only mount without sub-path at `mountPath`, which is
the mount-path annotation, or `path.Join("/etc/", "secret/", name)` when the annotation is
absent, which is `/etc/secret/<name>` for an ordinary name. The loop body does for it
exactly what it does for a secret of the same name and mount-path annotation whose mount
mode is `file`. -/
theorem getDevWorkspaceSecrets_file_default (c : Constants) (order : Secret → Nat)
    (ns : String) (api : ClusterAPI) (pre : List Secret) (secret : Secret)
    (post : List Secret)
    (hlist : api.List ns (c.DevWorkspaceMountLabel, "true") = .ok (pre ++ secret :: post))
    (hne : mapIndex secret.Annotations c.DevWorkspaceMountAsAnnotation ≠ "env")
    (hns : mapIndex secret.Annotations c.DevWorkspaceMountAsAnnotation ≠ "subpath") :
    getDevWorkspaceSecrets c order ns api
      = (some (appendResources (appendResources (secretsLoop c order pre)
          { Volumes := [{ Name := c.AutoMountSecretVolumeName secret.Name
                          Secret := some { SecretName := secret.Name
                                           DefaultMode := some 0o640 } }]
            VolumeMounts := [{ Name := c.AutoMountSecretVolumeName secret.Name
                               ReadOnly := true
                               MountPath := secretMountPath c secret
                               SubPath := "" }]
            EnvFromSource := [] })
          (secretsLoop c order post)), none) ∧
    (∀ (asFile : Secret) (acc : automountResources),
      mapIndex asFile.Annotations c.DevWorkspaceMountAsAnnotation = "file" →
      asFile.Name = secret.Name →
      mapIndex asFile.Annotations c.DevWorkspaceMountPathAnnotation
        = mapIndex secret.Annotations c.DevWorkspaceMountPathAnnotation →
      secretStep c order acc secret = secretStep c order acc asFile) ∧
    (secret.Annotations.lookup c.DevWorkspaceMountPathAnnotation = none →
      secretMountPath c secret = pathJoin ["/etc/", "secret/", secret.Name]) ∧
    (∀ declared, secret.Annotations.lookup c.DevWorkspaceMountPathAnnotation = some declared →
      declared ≠ "" → secretMountPath c secret = declared) ∧
    (ordinaryName secret.Name = true →
      pathJoin ["/etc/", "secret/", secret.Name] = "/etc/secret/" ++ secret.Name) := by
  refine ⟨?_, ?_, secretMountPath_absent c secret, secretMountPath_declared c secret,
    fun hn => (pathJoin_default secret.Name hn).1⟩
  · unfold getDevWorkspaceSecrets
    rw [hlist]
    simp only
    rw [secretsLoop_split, secretStep_file c order _ secret hne hns]
    rfl
  · intro asFile acc hfile hname hpath
    have h1 : mapIndex asFile.Annotations c.DevWorkspaceMountAsAnnotation ≠ "env" := by
      rw [hfile]; decide
    have h2 : mapIndex asFile.Annotations c.DevWorkspaceMountAsAnnotation ≠ "subpath" := by
      rw [hfile]; decide
    rw [secretStep_file c order acc secret hne hns, secretStep_file c order acc asFile h1 h2]
    simp [secretMountPath, hname, hpath]

theorem getDevWorkspaceSecrets_file_default_witness :
    (getDevWorkspaceSecrets sampleConstants (fun _ => 0) "user-ns" (listerOf [bogusSecret])
      = (some { Volumes := [{ Name := "automount-secret-settings"
                              Secret := some { SecretName := "settings"
                                               DefaultMode := some 416 } }]
                VolumeMounts := [{ Name := "automount-secret-settings", ReadOnly := true,
                                   MountPath := "/etc/secret/settings", SubPath := "" }]
                EnvFromSource := [] }, none)) ∧
    secretStep sampleConstants (fun _ => 0)
        { Volumes := [], VolumeMounts := [], EnvFromSource := [] } bogusSecret
      = secretStep sampleConstants (fun _ => 0)
        { Volumes := [], VolumeMounts := [], EnvFromSource := [] } fileSecret ∧
    (getDevWorkspaceSecrets sampleConstants (fun _ => 0) "user-ns" (listerOf [plainSecret])
      = (some { Volumes := [{ Name := "automount-secret-git-config"
                              Secret := some { SecretName := "git-config"
                                               DefaultMode := some 416 } }]
                VolumeMounts := [{ Name := "automount-secret-git-config", ReadOnly := true,
                                   MountPath := "/home/user/.config/git", SubPath := "" }]
                EnvFromSource := [] }, none)) :=
  ⟨(getDevWorkspaceSecrets_file_default sampleConstants (fun _ => 0) "user-ns"
      (listerOf [bogusSecret]) [] bogusSecret [] rfl (by decide) (by decide)).1,
   (getDevWorkspaceSecrets_file_default sampleConstants (fun _ => 0) "user-ns"
      (listerOf [bogusSecret]) [] bogusSecret [] rfl (by decide) (by decide)).2.1
      fileSecret _ (by decide) rfl (by decide),
   (getDevWorkspaceSecrets_file_default sampleConstants (fun _ => 0) "user-ns"
      (listerOf [plainSecret]) [] plainSecret [] rfl (by decide) (by decide)).1⟩

/-- C9 (evaluation). Two runs of `getDevWorkspaceSecrets` on the same listed secret
`tls-certs` (mode `subpath`, data keys `cert.pem` and `key.pem`) that differ only in the
order in which `range secret.Data` visits the two keys return the two volume mounts in
different orders, so the two results are not equal. -/
theorem getDevWorkspaceSecrets_depends_on_map_order :
    (getDevWorkspaceSecrets sampleConstants (fun _ => 0) "user-ns" (listerOf [tlsCerts])).1.map
        (fun r => r.VolumeMounts.map VolumeMount.SubPath) = some ["cert.pem", "key.pem"] ∧
    (getDevWorkspaceSecrets sampleConstants (fun _ => 1) "user-ns" (listerOf [tlsCerts])).1.map
        (fun r => r.VolumeMounts.map VolumeMount.SubPath) = some ["key.pem", "cert.pem"] ∧
    getDevWorkspaceSecrets sampleConstants (fun _ => 0) "user-ns" (listerOf [tlsCerts])
      ≠ getDevWorkspaceSecrets sampleConstants (fun _ => 1) "user-ns" (listerOf [tlsCerts]) := by
  refine ⟨by decide, by decide, by decide⟩

theorem secretStep_mounts_named (c : Constants) (order : Secret → Nat) (secret : Secret) :
    ∀ m ∈ (secretStep c order
        { Volumes := [], VolumeMounts := [], EnvFromSource := [] } secret).VolumeMounts,
      m.Name = c.AutoMountSecretVolumeName secret.Name ∧
      getAutoMountVolumeWithSecret c secret.Name ∈ (secretStep c order
        { Volumes := [], VolumeMounts := [], EnvFromSource := [] } secret).Volumes := by
  intro m hm
  by_cases henv : mapIndex secret.Annotations c.DevWorkspaceMountAsAnnotation = "env"
  · rw [secretStep_env c order _ secret henv] at hm
    simp at hm
  · by_cases hsub : mapIndex secret.Annotations c.DevWorkspaceMountAsAnnotation = "subpath"
    · rw [secretStep_subpath c order _ secret hsub] at hm ⊢
      simp only [List.nil_append, getAutoMountSecretSubpathVolumeMounts, List.mem_map] at hm
      obtain ⟨k, _, rfl⟩ := hm
      simp
    · rw [secretStep_file c order _ secret henv hsub] at hm ⊢
      simp only [List.nil_append, List.mem_singleton] at hm
      subst hm
      simp [getAutoMountSecretVolumeMount]

/-- C10. In every result of `getDevWorkspaceSecrets`, every volume mount carries the name
`AutoMountSecretVolumeName(secret.Name)` of one of the listed secrets, and the volume
produced for that secret, which has the same name, is among the volumes of the same result;
every volume of the result is named `AutoMountSecretVolumeName` of the name of a listed
secret. The name depends on the name of the secret only. -/
theorem getDevWorkspaceSecrets_names_agree (c : Constants) (order : Secret → Nat)
    (ns : String) (api : ClusterAPI) (secrets : List Secret) (res : automountResources)
    (hlist : api.List ns (c.DevWorkspaceMountLabel, "true") = .ok secrets)
    (hres : (getDevWorkspaceSecrets c order ns api).1 = some res) :
    (∀ m ∈ res.VolumeMounts, ∃ secret ∈ secrets,
      m.Name = c.AutoMountSecretVolumeName secret.Name ∧
      getAutoMountVolumeWithSecret c secret.Name ∈ res.Volumes ∧
      (getAutoMountVolumeWithSecret c secret.Name).Name = m.Name) ∧
    (∀ v ∈ res.Volumes, ∃ secret ∈ secrets,
      v = getAutoMountVolumeWithSecret c secret.Name ∧
      v.Name = c.AutoMountSecretVolumeName secret.Name) := by
  have hloop : res = secretsLoop c order secrets := by
    unfold getDevWorkspaceSecrets at hres
    rw [hlist] at hres
    exact (Option.some.inj hres).symm
  subst hloop
  clear hlist hres
  induction secrets with
  | nil => simp [secretsLoop]
  | cons s rest ih =>
    have hsplit := secretsLoop_split c order [] rest s
    simp only [List.nil_append] at hsplit
    rw [hsplit]
    have hempty : secretsLoop c order [] =
        { Volumes := [], VolumeMounts := [], EnvFromSource := [] } := rfl
    simp only [hempty, appendResources, List.nil_append]
    constructor
    · intro m hm
      rcases List.mem_append.mp hm with h | h
      · obtain ⟨h1, h2⟩ := secretStep_mounts_named c order s m h
        exact ⟨s, List.mem_cons_self _ _, h1, List.mem_append_left _ h2, h1.symm⟩
      · obtain ⟨x, hx, h1, h2, h3⟩ := ih.1 m h
        exact ⟨x, List.mem_cons_of_mem _ hx, h1, List.mem_append_right _ h2, h3⟩
    · intro v hv
      rcases List.mem_append.mp hv with h | h
      · refine ⟨s, List.mem_cons_self _ _, ?_⟩
        by_cases henv : mapIndex s.Annotations c.DevWorkspaceMountAsAnnotation = "env"
        · rw [secretStep_env c order _ s henv] at h
          simp at h
        · by_cases hsub : mapIndex s.Annotations c.DevWorkspaceMountAsAnnotation = "subpath"
          · rw [secretStep_subpath c order _ s hsub] at h
            simp only [List.nil_append, List.mem_singleton] at h
            subst h
            exact ⟨rfl, rfl⟩
          · rw [secretStep_file c order _ s henv hsub] at h
            simp only [List.nil_append, List.mem_singleton] at h
            subst h
            exact ⟨rfl, rfl⟩
      · obtain ⟨x, hx, h1, h2⟩ := ih.2 v h
        exact ⟨x, List.mem_cons_of_mem _ hx, h1, h2⟩

theorem getDevWorkspaceSecrets_names_agree_witness :
    ((secretsLoop sampleConstants (fun _ => 1)
        [dbCreds, tlsCerts, bogusSecret, plainSecret]).Volumes.length = 3 ∧
      (secretsLoop sampleConstants (fun _ => 1)
        [dbCreds, tlsCerts, bogusSecret, plainSecret]).VolumeMounts.length = 4) ∧
    ((∀ m ∈ (secretsLoop sampleConstants (fun _ => 1)
          [dbCreds, tlsCerts, bogusSecret, plainSecret]).VolumeMounts,
        ∃ secret ∈ [dbCreds, tlsCerts, bogusSecret, plainSecret],
          m.Name = sampleConstants.AutoMountSecretVolumeName secret.Name ∧
          getAutoMountVolumeWithSecret sampleConstants secret.Name
            ∈ (secretsLoop sampleConstants (fun _ => 1)
                [dbCreds, tlsCerts, bogusSecret, plainSecret]).Volumes ∧
          (getAutoMountVolumeWithSecret sampleConstants secret.Name).Name = m.Name) ∧
      (∀ v ∈ (secretsLoop sampleConstants (fun _ => 1)
          [dbCreds, tlsCerts, bogusSecret, plainSecret]).Volumes,
        ∃ secret ∈ [dbCreds, tlsCerts, bogusSecret, plainSecret],
          v = getAutoMountVolumeWithSecret sampleConstants secret.Name ∧
          v.Name = sampleConstants.AutoMountSecretVolumeName secret.Name)) :=
  ⟨by decide,
    getDevWorkspaceSecrets_names_agree sampleConstants (fun _ => 1) "user-ns"
      (listerOf [dbCreds, tlsCerts, bogusSecret, plainSecret])
      [dbCreds, tlsCerts, bogusSecret, plainSecret]
      (secretsLoop sampleConstants (fun _ => 1) [dbCreds, tlsCerts, bogusSecret, plainSecret])
      rfl rfl⟩

/-! ## Further properties of `pods.go` -/

theorem getPodOverridesLoop_no_attribute {Raw Bytes : Type} (c : Constants)
    (lib : Codec Raw Bytes) (components : List (Component Raw))
    (h : ∀ comp ∈ components, comp.Attributes.lookup c.PodOverridesAttribute = none) :
    ∀ acc : List PodTemplateSpec, getPodOverridesLoop c lib components acc = (acc, none) := by
  induction components with
  | nil => intro acc; rfl
  | cons comp rest ih =>
    intro acc
    rw [getPodOverridesLoop_step_none c lib comp rest acc (h comp (List.mem_cons_self _ _))]
    exact ih (fun x hx => h x (List.mem_cons_of_mem _ hx)) acc

theorem getPodOverrides_no_attribute {Raw Bytes : Type} (c : Constants)
    (lib : Codec Raw Bytes) (workspace : DevWorkspaceWithConfig Raw)
    (hws : workspace.Attributes.lookup c.PodOverridesAttribute = none)
    (hcomp : ∀ comp ∈ workspace.Components,
      comp.Attributes.lookup c.PodOverridesAttribute = none) :
    getPodOverrides c lib workspace = ([], none) := by
  unfold getPodOverrides
  rw [getPodOverridesLoop_no_attribute c lib workspace.Components hcomp []]
  simp [Attributes.Exists, hws]

theorem specCodec_roundtrip (t : PodTemplateSpec) : unmarshalDoc (marshalDoc t) = t := by
  obtain ⟨labels, ⟨cs, ics, vs, rp, sa, pc⟩⟩ := t
  have hl : ∀ {α : Type} (l : List α), (omitEmptyList l).getD [] = l := by
    intro α l; cases l <;> rfl
  have hs : ∀ s : String, (omitEmptyString s).getD "" = s := by
    intro s
    unfold omitEmptyString
    by_cases h : s = "" <;> simp [h]
  simp [unmarshalDoc, marshalDoc, hl, hs]

/-- C11. For a workspace that carries no override attribute, neither on the workspace nor
on a component, `ApplyPodOverrides` succeeds and returns the input deployment unchanged, so
its pod template equals the baseline pod template in every field, container list included;
this holds for every codec that unmarshals the marshalled baseline template back to it. -/
theorem ApplyPodOverrides_no_overrides {Raw Bytes : Type} (c : Constants)
    (lib : Codec Raw Bytes) (workspace : DevWorkspaceWithConfig Raw) (deployment : Deployment)
    (bytes : Bytes)
    (hws : workspace.Attributes.lookup c.PodOverridesAttribute = none)
    (hcomp : ∀ comp ∈ workspace.Components,
      comp.Attributes.lookup c.PodOverridesAttribute = none)
    (hm : lib.Marshal deployment.Template = .ok bytes)
    (hu : lib.Unmarshal bytes = .ok deployment.Template) :
    ApplyPodOverrides c lib workspace deployment = (some deployment, none) ∧
    ∀ patched, (ApplyPodOverrides c lib workspace deployment).1 = some patched →
      patched.Template = deployment.Template := by
  have hall : ApplyPodOverrides c lib workspace deployment = (some deployment, none) := by
    unfold ApplyPodOverrides
    rw [getPodOverrides_no_attribute c lib workspace hws hcomp]
    simp only [hm, applyOverridesLoop, hu]
  refine ⟨hall, ?_⟩
  intro patched hp
  rw [hall] at hp
  rw [← Option.some.inj hp]

theorem ApplyPodOverrides_no_overrides_witness :
    ApplyPodOverrides sampleConstants specCodec plainWorkspace mainDeployment
      = (some mainDeployment, none) :=
  (ApplyPodOverrides_no_overrides sampleConstants specCodec plainWorkspace mainDeployment
    (marshalDoc mainDeployment.Template) (by decide) (by decide) rfl
    (congrArg Except.ok (specCodec_roundtrip mainDeployment.Template))).1

theorem ApplyPodOverrides_cases {Raw Bytes : Type} (c : Constants) (lib : Codec Raw Bytes)
    (workspace : DevWorkspaceWithConfig Raw) (deployment : Deployment) :
    (∃ t : PodTemplateSpec, ApplyPodOverrides c lib workspace deployment
      = (some { deployment with
          Template := { t with
            Spec := { t.Spec with Containers := deployment.Template.Spec.Containers } } },
         none)) ∨
    (∃ err, ApplyPodOverrides c lib workspace deployment = (none, some err)) := by
  unfold ApplyPodOverrides
  rcases hov : getPodOverrides c lib workspace with ⟨overrides, _ | err⟩
  · simp only
    cases hm : lib.Marshal deployment.Template with
    | error e => exact Or.inr ⟨_, rfl⟩
    | ok b =>
      simp only
      cases hl : applyOverridesLoop lib overrides b with
      | error e => exact Or.inr ⟨_, rfl⟩
      | ok b2 =>
        simp only
        cases hu : lib.Unmarshal b2 with
        | error e => exact Or.inr ⟨_, rfl⟩
        | ok t => exact Or.inl ⟨t, rfl⟩
  · exact Or.inr ⟨err, rfl⟩

theorem applyOverridesLoop_append_ok {Raw Bytes : Type} (lib : Codec Raw Bytes)
    (pre rest : List PodTemplateSpec) :
    ∀ bytes merged : Bytes, applyOverridesLoop lib pre bytes = .ok merged →
      applyOverridesLoop lib (pre ++ rest) bytes = applyOverridesLoop lib rest merged := by
  induction pre with
  | nil =>
    intro bytes merged h
    simp only [applyOverridesLoop, Except.ok.injEq] at h
    subst h; rfl
  | cons o more ih =>
    intro bytes merged h
    rw [List.cons_append]
    simp only [applyOverridesLoop] at h ⊢
    cases hm : lib.Marshal o with
    | error e => simp [hm] at h
    | ok patch =>
      simp only [hm] at h ⊢
      cases hs : lib.StrategicMergePatch bytes patch with
      | error e => simp [hs] at h
      | ok m =>
        simp only [hs] at h ⊢
        exact ih m merged h

theorem applyOverridesLoop_fails_at {Raw Bytes : Type} (lib : Codec Raw Bytes)
    (pre : List PodTemplateSpec) (o : PodTemplateSpec) (post : List PodTemplateSpec)
    (bytes merged : Bytes) (err : String)
    (hpre : applyOverridesLoop lib pre bytes = .ok merged)
    (hfail : lib.Marshal o = .error err ∨
      ∃ patch, lib.Marshal o = .ok patch ∧ lib.StrategicMergePatch merged patch = .error err) :
    applyOverridesLoop lib (pre ++ o :: post) bytes
      = .error ("error applying pod overrides: " ++ err) := by
  rw [applyOverridesLoop_append_ok lib pre (o :: post) bytes merged hpre]
  unfold applyOverridesLoop
  rcases hfail with h | ⟨patch, h1, h2⟩
  · simp [h]
  · simp [h1, h2]

theorem ApplyPodOverrides_fails_at {Raw Bytes : Type} (c : Constants) (lib : Codec Raw Bytes)
    (workspace : DevWorkspaceWithConfig Raw) (deployment : Deployment)
    (pre : List PodTemplateSpec) (o : PodTemplateSpec) (post : List PodTemplateSpec)
    (bytes merged : Bytes) (err : String)
    (hget : getPodOverrides c lib workspace = (pre ++ o :: post, none))
    (hm : lib.Marshal deployment.Template = .ok bytes)
    (hpre : applyOverridesLoop lib pre bytes = .ok merged)
    (hfail : lib.Marshal o = .error err ∨
      ∃ patch, lib.Marshal o = .ok patch ∧ lib.StrategicMergePatch merged patch = .error err) :
    ApplyPodOverrides c lib workspace deployment
      = (none, some ("error applying pod overrides: " ++ err)) := by
  unfold ApplyPodOverrides
  simp only [hget, hm, applyOverridesLoop_fails_at lib pre o post bytes merged err hpre hfail]

/-- C12. When `ApplyPodOverrides` succeeds, the returned deployment differs from the input
deployment at most in its pod template: with the pod template of the input put back, it is
the input deployment, so name, namespace, labels, replicas, selector, strategy and status
are unchanged. -/
theorem ApplyPodOverrides_frame {Raw Bytes : Type} (c : Constants) (lib : Codec Raw Bytes)
    (workspace : DevWorkspaceWithConfig Raw) (deployment patched : Deployment)
    (h : ApplyPodOverrides c lib workspace deployment = (some patched, none)) :
    { patched with Template := deployment.Template } = deployment ∧
    patched.Name = deployment.Name ∧ patched.Namespace = deployment.Namespace ∧
    patched.Labels = deployment.Labels ∧ patched.Replicas = deployment.Replicas ∧
    patched.Selector = deployment.Selector ∧ patched.Strategy = deployment.Strategy ∧
    patched.ReadyReplicas = deployment.ReadyReplicas := by
  rcases ApplyPodOverrides_cases c lib workspace deployment with ⟨t, ht⟩ | ⟨err, herr⟩
  · rw [ht] at h
    have hp := Option.some.inj (Prod.mk.inj h).1
    subst hp
    exact ⟨rfl, rfl, rfl, rfl, rfl, rfl, rfl, rfl⟩
  · rw [herr] at h
    simp at h

theorem ApplyPodOverrides_frame_witness :
    ApplyPodOverrides sampleConstants specCodec restartWorkspace mainDeployment
      = (some { mainDeployment with
          Template := { mainDeployment.Template with
            Spec := { mainDeployment.Template.Spec with RestartPolicy := "OnFailure" } } },
         none) ∧
    { ({ mainDeployment with
          Template := { mainDeployment.Template with
            Spec := { mainDeployment.Template.Spec with RestartPolicy := "OnFailure" } } }
        : Deployment) with Template := mainDeployment.Template } = mainDeployment :=
  ⟨by decide,
   (ApplyPodOverrides_frame sampleConstants specCodec restartWorkspace mainDeployment
      { mainDeployment with
        Template := { mainDeployment.Template with
          Spec := { mainDeployment.Template.Spec with RestartPolicy := "OnFailure" } } }
      (by decide)).1⟩

/-- C13. `ApplyPodOverrides` never returns a deployment next to an error or nothing at all:
it returns either a deployment and no error, or an error and no deployment. In particular,
when marshalling or merging the fragment that follows the fragments `pre` fails after `pre`
merged successfully, no deployment is returned and an error is. -/
theorem ApplyPodOverrides_all_or_nothing {Raw Bytes : Type} (c : Constants)
    (lib : Codec Raw Bytes) (workspace : DevWorkspaceWithConfig Raw) (deployment : Deployment) :
    ((∃ patched, ApplyPodOverrides c lib workspace deployment = (some patched, none)) ∨
      (∃ err, ApplyPodOverrides c lib workspace deployment = (none, some err))) ∧
    (∀ pre o post bytes merged err,
      getPodOverrides c lib workspace = (pre ++ o :: post, none) →
      lib.Marshal deployment.Template = .ok bytes →
      applyOverridesLoop lib pre bytes = .ok merged →
      (lib.Marshal o = .error err ∨
        ∃ patch, lib.Marshal o = .ok patch ∧
          lib.StrategicMergePatch merged patch = .error err) →
      (ApplyPodOverrides c lib workspace deployment).1 = none ∧
      (ApplyPodOverrides c lib workspace deployment).2 ≠ none) := by
  constructor
  · rcases ApplyPodOverrides_cases c lib workspace deployment with ⟨t, ht⟩ | h
    · exact Or.inl ⟨_, ht⟩
    · exact Or.inr h
  · intro pre o post bytes merged err hget hm hpre hfail
    rw [ApplyPodOverrides_fails_at c lib workspace deployment pre o post bytes merged err
      hget hm hpre hfail]
    simp

theorem ApplyPodOverrides_all_or_nothing_witness :
    (ApplyPodOverrides sampleConstants rejectingCodec rejectedSecondWorkspace
        mainDeployment).1 = none ∧
    (ApplyPodOverrides sampleConstants rejectingCodec rejectedSecondWorkspace
        mainDeployment).2 ≠ none :=
  (ApplyPodOverrides_all_or_nothing sampleConstants rejectingCodec rejectedSecondWorkspace
    mainDeployment).2
    [clearProtected (unmarshalDoc { emptyDoc with serviceAccountName := some "builder" })]
    (clearProtected (unmarshalDoc { emptyDoc with restartPolicy := some "Sometimes" }))
    []
    (marshalDoc mainDeployment.Template)
    (strategicMerge (marshalDoc mainDeployment.Template)
      (marshalDoc (clearProtected
        (unmarshalDoc { emptyDoc with serviceAccountName := some "builder" }))))
    "unrecognized restart policy"
    (by decide) rfl rfl
    (Or.inr ⟨marshalDoc (clearProtected
      (unmarshalDoc { emptyDoc with restartPolicy := some "Sometimes" })), rfl, rfl⟩)

/-- C18 (as the code behaves). When marshalling or merging the fragment at index `i` of the
collected sequence fails with the library error `err`, after the fragments before it merged
successfully, `ApplyPodOverrides` returns no deployment and the error
`error applying pod overrides: ` followed by `err`: the error carries the cause and not the
index `i`. -/
theorem ApplyPodOverrides_merge_error {Raw Bytes : Type} (c : Constants)
    (lib : Codec Raw Bytes) (workspace : DevWorkspaceWithConfig Raw) (deployment : Deployment)
    (overrides : List PodTemplateSpec) (i : Nat) (hi : i < overrides.length)
    (bytes merged : Bytes) (err : String)
    (hget : getPodOverrides c lib workspace = (overrides, none))
    (hm : lib.Marshal deployment.Template = .ok bytes)
    (hpre : applyOverridesLoop lib (overrides.take i) bytes = .ok merged)
    (hfail : lib.Marshal overrides[i] = .error err ∨
      ∃ patch, lib.Marshal overrides[i] = .ok patch ∧
        lib.StrategicMergePatch merged patch = .error err) :
    ApplyPodOverrides c lib workspace deployment
      = (none, some ("error applying pod overrides: " ++ err)) := by
  have hsplit : overrides = overrides.take i ++ overrides[i] :: overrides.drop (i + 1) := by
    rw [← List.drop_eq_getElem_cons hi, List.take_append_drop]
  rw [hsplit] at hget
  exact ApplyPodOverrides_fails_at c lib workspace deployment _ _ _ bytes merged err hget hm
    hpre hfail

theorem ApplyPodOverrides_merge_error_witness :
    ApplyPodOverrides sampleConstants rejectingCodec rejectedSecondWorkspace mainDeployment
      = (none, some ("error applying pod overrides: " ++ "unrecognized restart policy")) :=
  ApplyPodOverrides_merge_error sampleConstants rejectingCodec rejectedSecondWorkspace
    mainDeployment
    [clearProtected (unmarshalDoc { emptyDoc with serviceAccountName := some "builder" }),
     clearProtected (unmarshalDoc { emptyDoc with restartPolicy := some "Sometimes" })]
    1 (by decide)
    (marshalDoc mainDeployment.Template)
    (strategicMerge (marshalDoc mainDeployment.Template)
      (marshalDoc (clearProtected
        (unmarshalDoc { emptyDoc with serviceAccountName := some "builder" }))))
    "unrecognized restart policy"
    (by decide) rfl rfl
    (Or.inr ⟨marshalDoc (clearProtected
      (unmarshalDoc { emptyDoc with restartPolicy := some "Sometimes" })), rfl, rfl⟩)

/-- C18 (counterexample). With a merge that rejects the restart policy `Sometimes`, the
rejected fragment is at index 0 of the sequence collected from one workspace and at index 1
(after a fragment that merges) of the sequence collected from another; `ApplyPodOverrides`
returns the same error for both, so the error does not tell the two indices apart. -/
theorem ApplyPodOverrides_error_hides_index :
    (getPodOverrides sampleConstants rejectingCodec rejectedFirstWorkspace).1.map
        (fun o => o.Spec.RestartPolicy) = ["Sometimes"] ∧
    (getPodOverrides sampleConstants rejectingCodec rejectedSecondWorkspace).1.map
        (fun o => o.Spec.RestartPolicy) = ["", "Sometimes"] ∧
    (applyOverridesLoop rejectingCodec
        ((getPodOverrides sampleConstants rejectingCodec rejectedSecondWorkspace).1.take 1)
        (marshalDoc mainDeployment.Template)).toBool = true ∧
    ApplyPodOverrides sampleConstants rejectingCodec rejectedFirstWorkspace mainDeployment
      = (none, some "error applying pod overrides: unrecognized restart policy") ∧
    ApplyPodOverrides sampleConstants rejectingCodec rejectedSecondWorkspace mainDeployment
      = (none, some "error applying pod overrides: unrecognized restart policy") ∧
    ApplyPodOverrides sampleConstants rejectingCodec rejectedFirstWorkspace mainDeployment
      = ApplyPodOverrides sampleConstants rejectingCodec rejectedSecondWorkspace
          mainDeployment := by
  refine ⟨by decide, by decide, by decide, by decide, by decide, by decide⟩

/-- C17. `NeedsPodOverrides` returns true exactly when the attributes of the workspace or of
at least one component contain the override attribute key. When it returns false,
`getPodOverrides` succeeds with the empty sequence; when it returns true, `getPodOverrides`
returns an error or a non-empty sequence. -/
theorem NeedsPodOverrides_sound_complete {Raw Bytes : Type} (c : Constants)
    (lib : Codec Raw Bytes) (workspace : DevWorkspaceWithConfig Raw) :
    (NeedsPodOverrides c workspace = true ↔
      (workspace.Attributes.Exists c.PodOverridesAttribute = true ∨
        ∃ comp ∈ workspace.Components,
          comp.Attributes.Exists c.PodOverridesAttribute = true)) ∧
    (NeedsPodOverrides c workspace = false → getPodOverrides c lib workspace = ([], none)) ∧
    (NeedsPodOverrides c workspace = true →
      (getPodOverrides c lib workspace).2 ≠ none ∨
      (getPodOverrides c lib workspace).1 ≠ []) := by
  have hiff : NeedsPodOverrides c workspace = true ↔
      (workspace.Attributes.Exists c.PodOverridesAttribute = true ∨
        ∃ comp ∈ workspace.Components,
          comp.Attributes.Exists c.PodOverridesAttribute = true) := by
    unfold NeedsPodOverrides
    by_cases hw : workspace.Attributes.Exists c.PodOverridesAttribute = true
    · simp [hw]
    · simp [hw, List.any_eq_true]
  refine ⟨hiff, ?_, ?_⟩
  · intro hfalse
    have hnot : ¬ (workspace.Attributes.Exists c.PodOverridesAttribute = true ∨
        ∃ comp ∈ workspace.Components,
          comp.Attributes.Exists c.PodOverridesAttribute = true) := by
      rw [← hiff, hfalse]; simp
    have hws : workspace.Attributes.lookup c.PodOverridesAttribute = none := by
      cases hl : workspace.Attributes.lookup c.PodOverridesAttribute with
      | none => rfl
      | some raw => exact absurd (Or.inl (by simp [Attributes.Exists, hl])) hnot
    have hcomp : ∀ comp ∈ workspace.Components,
        comp.Attributes.lookup c.PodOverridesAttribute = none := by
      intro comp hc
      cases hl : comp.Attributes.lookup c.PodOverridesAttribute with
      | none => rfl
      | some raw =>
        exact absurd (Or.inr ⟨comp, hc, by simp [Attributes.Exists, hl]⟩) hnot
    exact getPodOverrides_no_attribute c lib workspace hws hcomp
  · intro htrue
    rcases hiff.mp htrue with hw | ⟨comp, hc, hex⟩
    · -- the workspace-level attribute is present
      unfold getPodOverrides
      rcases hloop : getPodOverridesLoop c lib workspace.Components [] with ⟨all, _ | e⟩
      · simp only [hw, if_true]
        cases hg : workspace.Attributes.GetInto lib c.PodOverridesAttribute with
        | error e => exact Or.inl (by simp)
        | ok o => exact Or.inr (by simp)
      · exact Or.inl (by simp)
    · -- a component carries the attribute
      obtain ⟨pre, post, hsplit⟩ := List.append_of_mem hc
      have hkey : ∀ (xs : List (Component Raw)) (acc : List PodTemplateSpec),
          acc ≠ [] → (getPodOverridesLoop c lib xs acc).2 = none →
          (getPodOverridesLoop c lib xs acc).1 ≠ [] := by
        intro xs
        induction xs with
        | nil => intro acc hacc _; simpa [getPodOverridesLoop] using hacc
        | cons x rest ih =>
          intro acc hacc hnone
          cases hl : x.Attributes.lookup c.PodOverridesAttribute with
          | none =>
            rw [getPodOverridesLoop_step_none c lib x rest acc hl] at hnone ⊢
            exact ih acc hacc hnone
          | some raw =>
            cases hd : lib.Decode raw with
            | error e =>
              rw [getPodOverridesLoop_step_error c lib x rest acc raw e hl hd] at hnone
              simp at hnone
            | ok d =>
              rw [getPodOverridesLoop_step_ok c lib x rest acc raw d hl hd] at hnone ⊢
              exact ih _ (by simp) hnone
      have hsome : ∀ (xs : List (Component Raw)) (acc : List PodTemplateSpec),
          (∃ x ∈ xs, x.Attributes.Exists c.PodOverridesAttribute = true) →
          (getPodOverridesLoop c lib xs acc).2 = none →
          (getPodOverridesLoop c lib xs acc).1 ≠ [] := by
        intro xs
        induction xs with
        | nil => intro acc hx; simp at hx
        | cons x rest ih =>
          intro acc hx hnone
          cases hl : x.Attributes.lookup c.PodOverridesAttribute with
          | none =>
            rw [getPodOverridesLoop_step_none c lib x rest acc hl] at hnone ⊢
            obtain ⟨y, hy, hye⟩ := hx
            rcases List.mem_cons.mp hy with h1 | h1
            · subst h1; simp [Attributes.Exists, hl] at hye
            · exact ih acc ⟨y, h1, hye⟩ hnone
          | some raw =>
            cases hd : lib.Decode raw with
            | error e =>
              rw [getPodOverridesLoop_step_error c lib x rest acc raw e hl hd] at hnone
              simp at hnone
            | ok d =>
              rw [getPodOverridesLoop_step_ok c lib x rest acc raw d hl hd] at hnone ⊢
              exact hkey rest _ (by simp) hnone
      unfold getPodOverrides
      rcases hloop : getPodOverridesLoop c lib workspace.Components [] with ⟨all, _ | e⟩
      · have hall : all ≠ [] := by
          have := hsome workspace.Components [] ⟨comp, hc, hex⟩ (by rw [hloop])
          rwa [hloop] at this
        simp only
        split
        · cases hg : workspace.Attributes.GetInto lib c.PodOverridesAttribute with
          | error e => exact Or.inl (by simp)
          | ok o => exact Or.inr (by simp)
        · exact Or.inr hall
      · exact Or.inl (by simp)

theorem NeedsPodOverrides_sound_complete_witness :
    (NeedsPodOverrides sampleConstants plainWorkspace = false ∧
      getPodOverrides sampleConstants specCodec plainWorkspace = ([], none)) ∧
    (NeedsPodOverrides sampleConstants intrudingWorkspace = true ∧
      ((getPodOverrides sampleConstants specCodec intrudingWorkspace).2 ≠ none ∨
       (getPodOverrides sampleConstants specCodec intrudingWorkspace).1 ≠ [])) ∧
    (NeedsPodOverrides sampleConstants brokenGlobalWorkspace = true ∧
      ((getPodOverrides sampleConstants specCodec brokenGlobalWorkspace).2 ≠ none ∨
       (getPodOverrides sampleConstants specCodec brokenGlobalWorkspace).1 ≠ [])) :=
  ⟨⟨by decide,
     (NeedsPodOverrides_sound_complete sampleConstants specCodec plainWorkspace).2.1
       (by decide)⟩,
   ⟨by decide,
     (NeedsPodOverrides_sound_complete sampleConstants specCodec intrudingWorkspace).2.2
       (by decide)⟩,
   ⟨by decide,
     (NeedsPodOverrides_sound_complete sampleConstants specCodec brokenGlobalWorkspace).2.2
       (by decide)⟩⟩

/-! ## Further properties of `secret.go` -/

/-- C14. When listing the secrets fails, `getDevWorkspaceSecrets` returns the error of the
lister itself, not wrapped, and no resources; when listing succeeds it returns the resources
built by the loop and no error, for every list of secrets. -/
theorem getDevWorkspaceSecrets_list_error (c : Constants) (order : Secret → Nat) (ns : String)
    (api : ClusterAPI) :
    (∀ err, api.List ns (c.DevWorkspaceMountLabel, "true") = .error err →
      getDevWorkspaceSecrets c order ns api = (none, some err)) ∧
    (∀ secrets, api.List ns (c.DevWorkspaceMountLabel, "true") = .ok secrets →
      getDevWorkspaceSecrets c order ns api = (some (secretsLoop c order secrets), none)) := by
  constructor
  · intro err h
    unfold getDevWorkspaceSecrets
    rw [h]
  · intro secrets h
    unfold getDevWorkspaceSecrets
    rw [h]

theorem getDevWorkspaceSecrets_list_error_witness :
    getDevWorkspaceSecrets sampleConstants (fun _ => 0) "user-ns" failingLister
      = (none, some "secrets is forbidden") ∧
    getDevWorkspaceSecrets sampleConstants (fun _ => 0) "user-ns"
        (listerOf [bogusSecret, dbCreds])
      = (some (secretsLoop sampleConstants (fun _ => 0) [bogusSecret, dbCreds]), none) :=
  ⟨(getDevWorkspaceSecrets_list_error sampleConstants (fun _ => 0) "user-ns"
      failingLister).1 "secrets is forbidden" rfl,
   (getDevWorkspaceSecrets_list_error sampleConstants (fun _ => 0) "user-ns"
      (listerOf [bogusSecret, dbCreds])).2 [bogusSecret, dbCreds] rfl⟩

theorem secretStep_eq (c : Constants) (order : Secret → Nat) (secret : Secret) :
    secretStep c order { Volumes := [], VolumeMounts := [], EnvFromSource := [] } secret
      = if secretMountAs c secret = "env" then
          { Volumes := [], VolumeMounts := [],
            EnvFromSource := [getAutoMountSecretEnvFromSource secret.Name] }
        else
          { Volumes := [getAutoMountVolumeWithSecret c secret.Name],
            VolumeMounts := secretVolumeMounts c order secret,
            EnvFromSource := [] } := by
  by_cases henv : mapIndex secret.Annotations c.DevWorkspaceMountAsAnnotation = "env"
  · rw [secretStep_env c order _ secret henv]
    simp [secretMountAs, henv, getAutoMountSecretEnvFromSource]
  · by_cases hsub : mapIndex secret.Annotations c.DevWorkspaceMountAsAnnotation = "subpath"
    · rw [secretStep_subpath c order _ secret hsub]
      simp [secretMountAs, secretVolumeMounts, henv, hsub]
    · rw [secretStep_file c order _ secret henv hsub]
      simp [secretMountAs, secretVolumeMounts, henv, hsub]

theorem secretsLoop_eq (c : Constants) (order : Secret → Nat) (secrets : List Secret) :
    secretsLoop c order secrets
      = { Volumes := (secrets.filter (fun s => decide (secretMountAs c s ≠ "env"))).map
            (fun s => getAutoMountVolumeWithSecret c s.Name)
          VolumeMounts := ((secrets.filter (fun s => decide (secretMountAs c s ≠ "env"))).map
            (secretVolumeMounts c order)).flatten
          EnvFromSource := (secrets.filter (fun s => decide (secretMountAs c s = "env"))).map
            (fun s => getAutoMountSecretEnvFromSource s.Name) } := by
  induction secrets with
  | nil => rfl
  | cons s rest ih =>
    have hsplit := secretsLoop_split c order [] rest s
    simp only [List.nil_append] at hsplit
    have hempty : secretsLoop c order [] =
        { Volumes := [], VolumeMounts := [], EnvFromSource := [] } := rfl
    rw [hsplit, hempty, secretStep_eq, ih]
    by_cases henv : secretMountAs c s = "env"
    · simp [appendResources, henv]
    · simp [appendResources, henv]

theorem filter_length_add {α : Type} (p : α → Prop) [DecidablePred p] (l : List α) :
    (l.filter (fun s => decide (¬ p s))).length + (l.filter (fun s => decide (p s))).length
      = l.length := by
  induction l with
  | nil => rfl
  | cons x rest ih =>
    simp only [decide_not] at ih ⊢
    by_cases h : p x
    · simp only [List.filter, h, decide_True, Bool.not_true, List.length_cons]; omega
    · simp only [List.filter, h, decide_False, Bool.not_false, List.length_cons]; omega

theorem secretVolumeMounts_length (c : Constants) (order : Secret → Nat) (secret : Secret) :
    (secretVolumeMounts c order secret).length
      = if secretMountAs c secret = "subpath" then secret.Data.length else 1 := by
  unfold secretVolumeMounts
  split
  · unfold getAutoMountSecretSubpathVolumeMounts
    rw [List.length_map, (rangeOrder_perm _ _).length_eq, List.length_map]
  · rfl

/-- C20. `getDevWorkspaceSecrets` partitions the listed secrets and keeps the listing
order: `Volumes` holds one volume per secret whose mode is not `env`, in listing order;
`EnvFromSource` holds one entry per `env` secret, in listing order; `VolumeMounts` is the
concatenation, in listing order, of the mounts of the secrets whose mode is not `env`, which
are one mount for a secret that is not mounted by sub-path and one per data key for a
`subpath` secret. So the lengths of `Volumes` and `EnvFromSource` add up to the number of
listed secrets, and an empty listing gives three empty sequences. -/
theorem getDevWorkspaceSecrets_partition (c : Constants) (order : Secret → Nat) (ns : String)
    (api : ClusterAPI) (secrets : List Secret)
    (hlist : api.List ns (c.DevWorkspaceMountLabel, "true") = .ok secrets) :
    ∃ res, getDevWorkspaceSecrets c order ns api = (some res, none) ∧
      res.Volumes = (secrets.filter (fun s => decide (secretMountAs c s ≠ "env"))).map
        (fun s => getAutoMountVolumeWithSecret c s.Name) ∧
      res.EnvFromSource = (secrets.filter (fun s => decide (secretMountAs c s = "env"))).map
        (fun s => getAutoMountSecretEnvFromSource s.Name) ∧
      res.VolumeMounts = ((secrets.filter (fun s => decide (secretMountAs c s ≠ "env"))).map
        (secretVolumeMounts c order)).flatten ∧
      (∀ s, (secretVolumeMounts c order s).length
        = if secretMountAs c s = "subpath" then s.Data.length else 1) ∧
      res.Volumes.length + res.EnvFromSource.length = secrets.length ∧
      (secrets = [] → res = { Volumes := [], VolumeMounts := [], EnvFromSource := [] }) := by
  refine ⟨secretsLoop c order secrets, ?_, ?_, ?_, ?_, secretVolumeMounts_length c order,
    ?_, ?_⟩
  · unfold getDevWorkspaceSecrets
    rw [hlist]
  · rw [secretsLoop_eq]
  · rw [secretsLoop_eq]
  · rw [secretsLoop_eq]
  · rw [secretsLoop_eq]
    simp only [List.length_map]
    exact filter_length_add (fun s => secretMountAs c s = "env") secrets
  · intro h
    subst h
    rfl

theorem getDevWorkspaceSecrets_partition_witness :
    ∃ res,
      getDevWorkspaceSecrets sampleConstants (fun _ => 0) "user-ns"
        (listerOf [dbCreds, tlsCerts, bogusSecret, plainSecret]) = (some res, none) ∧
      res.Volumes.map Volume.Name = ["automount-secret-tls-certs",
        "automount-secret-settings", "automount-secret-git-config"] ∧
      res.EnvFromSource = [{ SecretRef := some "db-creds" }] ∧
      res.VolumeMounts.map VolumeMount.MountPath = ["/etc/secret/tls-certs/cert.pem",
        "/etc/secret/tls-certs/key.pem", "/etc/secret/settings", "/home/user/.config/git"] ∧
      res.Volumes.length + res.EnvFromSource.length = 4 := by
  obtain ⟨res, h1, h2, h3, h4, _, h6, _⟩ :=
    getDevWorkspaceSecrets_partition sampleConstants (fun _ => 0) "user-ns"
      (listerOf [dbCreds, tlsCerts, bogusSecret, plainSecret])
      [dbCreds, tlsCerts, bogusSecret, plainSecret] rfl
  refine ⟨res, h1, ?_, ?_, ?_, h6⟩
  · rw [h2]; decide
  · rw [h3]; decide
  · rw [h4]; decide

/-- C15. In every result of `getDevWorkspaceSecrets`, every volume mount is read-only and
every volume is a secret volume with default mode octal 0640, which is decimal 416, grants
nothing to others (no bit of octal 007) and nothing beyond read and write for the owner and
read for the group (no bit outside octal 0640). -/
theorem getDevWorkspaceSecrets_read_only (c : Constants) (order : Secret → Nat) (ns : String)
    (api : ClusterAPI) (res : automountResources)
    (hres : (getDevWorkspaceSecrets c order ns api).1 = some res) :
    (∀ m ∈ res.VolumeMounts, m.ReadOnly = true) ∧
    (∀ v ∈ res.Volumes, ∃ source mode, v.Secret = some source ∧
      source.DefaultMode = some mode ∧ mode = 0o640 ∧ mode = 416 ∧
      mode &&& 0o007 = 0 ∧ mode &&& 0o400 = 0o400 ∧ mode &&& 0o200 = 0o200 ∧
      mode &&& 0o040 = 0o040 ∧ mode &&& (0o7777 - 0o640) = 0 ∧ mode < 0o10000) := by
  have hloop : ∃ secrets, res = secretsLoop c order secrets := by
    unfold getDevWorkspaceSecrets at hres
    cases hl : api.List ns (c.DevWorkspaceMountLabel, "true") with
    | error e => rw [hl] at hres; simp at hres
    | ok secrets => rw [hl] at hres; exact ⟨secrets, (Option.some.inj hres).symm⟩
  obtain ⟨secrets, rfl⟩ := hloop
  rw [secretsLoop_eq]
  constructor
  · intro m hm
    simp only [List.mem_flatten, List.mem_map, List.mem_filter] at hm
    obtain ⟨l, ⟨s, _, rfl⟩, hml⟩ := hm
    unfold secretVolumeMounts at hml
    split at hml
    · simp only [getAutoMountSecretSubpathVolumeMounts, List.mem_map] at hml
      obtain ⟨k, _, rfl⟩ := hml
      rfl
    · simp only [List.mem_singleton] at hml
      subst hml
      rfl
  · intro v hv
    simp only [List.mem_map, List.mem_filter] at hv
    obtain ⟨s, _, rfl⟩ := hv
    exact ⟨_, _, rfl, rfl, rfl, rfl, by decide, by decide, by decide, by decide, by decide,
      by decide⟩

theorem getDevWorkspaceSecrets_read_only_witness :
    ((secretsLoop sampleConstants (fun _ => 0)
        [dbCreds, tlsCerts, bogusSecret]).VolumeMounts.length = 3 ∧
      (secretsLoop sampleConstants (fun _ => 0)
        [dbCreds, tlsCerts, bogusSecret]).Volumes.length = 2) ∧
    (∀ m ∈ (secretsLoop sampleConstants (fun _ => 0)
        [dbCreds, tlsCerts, bogusSecret]).VolumeMounts, m.ReadOnly = true) ∧
    (∀ v ∈ (secretsLoop sampleConstants (fun _ => 0) [dbCreds, tlsCerts, bogusSecret]).Volumes,
      ∃ source mode, v.Secret = some source ∧
      source.DefaultMode = some mode ∧ mode = 0o640 ∧ mode = 416 ∧
      mode &&& 0o007 = 0 ∧ mode &&& 0o400 = 0o400 ∧ mode &&& 0o200 = 0o200 ∧
      mode &&& 0o040 = 0o040 ∧ mode &&& (0o7777 - 0o640) = 0 ∧ mode < 0o10000) :=
  ⟨by decide,
   getDevWorkspaceSecrets_read_only sampleConstants (fun _ => 0) "user-ns"
    (listerOf [dbCreds, tlsCerts, bogusSecret])
    (secretsLoop sampleConstants (fun _ => 0) [dbCreds, tlsCerts, bogusSecret]) rfl⟩

/-! ## Further properties of the composition with the modelled codec -/

theorem getPodOverrides_all_cleared {Raw Bytes : Type} (c : Constants)
    (lib : Codec Raw Bytes) (workspace : DevWorkspaceWithConfig Raw) :
    ∀ o ∈ (getPodOverrides c lib workspace).1,
      o.Spec.Containers = [] ∧ o.Spec.InitContainers = [] ∧ o.Spec.Volumes = [] := by
  have hloop := getPodOverridesLoop_cleared c lib workspace.Components []
    (by intro o ho; simp at ho)
  unfold getPodOverrides
  split
  · intro o ho; simp at ho
  · rename_i all hall
    rw [hall] at hloop
    split
    · split
      · intro o ho; simp at ho
      · intro o ho
        rcases List.mem_append.mp ho with h | h
        · exact hloop o h
        · simp at h; subst h; simp [clearProtected]
    · exact hloop

theorem ApplyPodOverrides_specCodec_template (c : Constants)
    (workspace : DevWorkspaceWithConfig RawJSON) (deployment : Deployment)
    (overrides : List PodTemplateSpec)
    (h : getPodOverrides c specCodec workspace = (overrides, none)) :
    ApplyPodOverrides c specCodec workspace deployment
      = (some { deployment with
          Template :=
            { unmarshalDoc (overrides.foldl (fun b o => strategicMerge b (marshalDoc o))
                (marshalDoc deployment.Template)) with
              Spec :=
                { (unmarshalDoc (overrides.foldl (fun b o => strategicMerge b (marshalDoc o))
                    (marshalDoc deployment.Template))).Spec with
                  Containers := deployment.Template.Spec.Containers } } }, none) := by
  unfold ApplyPodOverrides
  simp only [h]
  have hm : specCodec.Marshal deployment.Template = .ok (marshalDoc deployment.Template) := rfl
  simp only [hm, applyOverridesLoop_specCodec]
  rfl

theorem ApplyPodOverrides_specCodec_ok (c : Constants)
    (workspace : DevWorkspaceWithConfig RawJSON) (deployment : Deployment)
    (h : (ApplyPodOverrides c specCodec workspace deployment).2 = none) :
    getPodOverrides c specCodec workspace
      = ((getPodOverrides c specCodec workspace).1, none) := by
  rcases hov : getPodOverrides c specCodec workspace with ⟨overrides, _ | err⟩
  · rfl
  · unfold ApplyPodOverrides at h
    simp [hov] at h

theorem merge_cleared_keeps_lists (b : TemplateDoc) (o : PodTemplateSpec)
    (hi : o.Spec.InitContainers = []) (hv : o.Spec.Volumes = []) :
    (unmarshalDoc (strategicMerge b (marshalDoc o))).Spec.InitContainers
      = (unmarshalDoc b).Spec.InitContainers ∧
    (unmarshalDoc (strategicMerge b (marshalDoc o))).Spec.Volumes
      = (unmarshalDoc b).Spec.Volumes := by
  simp [unmarshalDoc, strategicMerge, marshalDoc, hi, hv, omitEmptyList, mergeOptionalList]

theorem fold_cleared_keeps_lists (overrides : List PodTemplateSpec)
    (h : ∀ o ∈ overrides, o.Spec.InitContainers = [] ∧ o.Spec.Volumes = []) :
    ∀ b : TemplateDoc,
      (unmarshalDoc (overrides.foldl (fun b o => strategicMerge b (marshalDoc o))
          b)).Spec.InitContainers = (unmarshalDoc b).Spec.InitContainers ∧
      (unmarshalDoc (overrides.foldl (fun b o => strategicMerge b (marshalDoc o))
          b)).Spec.Volumes = (unmarshalDoc b).Spec.Volumes := by
  induction overrides with
  | nil => intro b; exact ⟨rfl, rfl⟩
  | cons o rest ih =>
    intro b
    rw [List.foldl_cons]
    obtain ⟨h1, h2⟩ := ih (fun x hx => h x (List.mem_cons_of_mem _ hx))
      (strategicMerge b (marshalDoc o))
    obtain ⟨hi, hv⟩ := h o (List.mem_cons_self _ _)
    obtain ⟨h3, h4⟩ := merge_cleared_keeps_lists b o hi hv
    exact ⟨h1.trans h3, h2.trans h4⟩

/-- C19. With the codec and strategic merge as the specification describes them, whenever
`ApplyPodOverrides` succeeds the init-container list and the volume list of the returned
pod template are those of the baseline pod template, whatever init containers and volumes
the override attributes declare. -/
theorem ApplyPodOverrides_keeps_init_containers_and_volumes (c : Constants)
    (workspace : DevWorkspaceWithConfig RawJSON) (deployment : Deployment)
    (h : (ApplyPodOverrides c specCodec workspace deployment).2 = none) :
    ∃ patched, ApplyPodOverrides c specCodec workspace deployment = (some patched, none) ∧
      patched.Template.Spec.InitContainers = deployment.Template.Spec.InitContainers ∧
      patched.Template.Spec.Volumes = deployment.Template.Spec.Volumes := by
  have hget := ApplyPodOverrides_specCodec_ok c workspace deployment h
  have hcl : ∀ o ∈ (getPodOverrides c specCodec workspace).1,
      o.Spec.InitContainers = [] ∧ o.Spec.Volumes = [] :=
    fun o ho => (getPodOverrides_all_cleared c specCodec workspace o ho).2
  obtain ⟨h1, h2⟩ := fold_cleared_keeps_lists _ hcl (marshalDoc deployment.Template)
  rw [specCodec_roundtrip] at h1 h2
  exact ⟨_, ApplyPodOverrides_specCodec_template c workspace deployment _ hget, h1, h2⟩

theorem ApplyPodOverrides_keeps_init_containers_and_volumes_witness :
    (∃ patched,
      ApplyPodOverrides sampleConstants specCodec intrudingWorkspace fullDeployment
        = (some patched, none) ∧
      patched.Template.Spec.InitContainers
        = [{ Name := "project-clone", Image := "quay.io/devfile/clone" }] ∧
      patched.Template.Spec.Volumes = [{ Name := "projects", Secret := none }]) ∧
    (ApplyPodOverrides sampleConstants specCodec intrudingWorkspace fullDeployment).1.map
      (fun p => p.Template.Spec.ServiceAccountName) = some "builder" :=
  ⟨ApplyPodOverrides_keeps_init_containers_and_volumes sampleConstants intrudingWorkspace
    fullDeployment (by decide), by decide⟩

theorem lookup_cons_eq (k a b : String) (es : List (String × String)) :
    List.lookup k ((a, b) :: es) = if k = a then some b else es.lookup k := by
  rw [List.lookup_cons]
  by_cases h : k = a
  · simp [h]
  · have hb : (k == a) = false := by simpa using h
    simp [hb, h]

theorem lookup_none_of_not_mem (k : String) (l : List (String × String))
    (h : k ∉ l.map Prod.fst) : l.lookup k = none := by
  induction l with
  | nil => rfl
  | cons kv rest ih =>
    obtain ⟨k0, v0⟩ := kv
    simp only [List.map_cons, List.mem_cons, not_or] at h
    rw [lookup_cons_eq, if_neg h.1]
    exact ih h.2

theorem lookup_setLabel (m : List (String × String)) (k v k1 : String) :
    (setLabel m k v).lookup k1 = if k1 = k then some v else m.lookup k1 := by
  induction m with
  | nil =>
    simp only [setLabel, lookup_cons_eq]
  | cons kv rest ih =>
    obtain ⟨k0, v0⟩ := kv
    unfold setLabel
    by_cases h0 : k0 = k
    · subst h0
      simp only [if_true, lookup_cons_eq]
      by_cases h1 : k1 = k0 <;> simp [h1]
    · simp only [h0, if_false, lookup_cons_eq, ih]
      by_cases h1 : k1 = k0
      · subst h1
        simp [h0]
      · simp [h1]

theorem lookup_foldl_setLabel_none (k : String) (l : List (String × String))
    (h : l.lookup k = none) :
    ∀ m : List (String × String),
      (l.foldl (fun m kv => setLabel m kv.1 kv.2) m).lookup k = m.lookup k := by
  induction l with
  | nil => intro m; rfl
  | cons kv rest ih =>
    intro m
    obtain ⟨k0, v0⟩ := kv
    rw [lookup_cons_eq] at h
    by_cases h0 : k = k0
    · simp [h0] at h
    · rw [if_neg h0] at h
      rw [List.foldl_cons, ih h, lookup_setLabel, if_neg h0]

theorem lookup_foldl_setLabel_some (k v : String) (l : List (String × String))
    (hnodup : (l.map Prod.fst).Nodup) (h : l.lookup k = some v) :
    ∀ m : List (String × String),
      (l.foldl (fun m kv => setLabel m kv.1 kv.2) m).lookup k = some v := by
  induction l with
  | nil => simp at h
  | cons kv rest ih =>
    intro m
    obtain ⟨k0, v0⟩ := kv
    simp only [List.map_cons, List.nodup_cons] at hnodup
    obtain ⟨hnot, hrest⟩ := hnodup
    rw [lookup_cons_eq] at h
    by_cases h0 : k = k0
    · subst h0
      rw [if_pos rfl] at h
      have hnone : rest.lookup k = none := lookup_none_of_not_mem k rest hnot
      rw [List.foldl_cons, lookup_foldl_setLabel_none k rest hnone, lookup_setLabel,
        if_pos rfl]
      exact h
    · rw [if_neg h0] at h
      rw [List.foldl_cons]
      exact ih hrest h _

theorem podField_get_merge_unset (fld : PodField) (b : TemplateDoc) (o : PodTemplateSpec)
    (h : fld.get o = none) :
    fld.get (unmarshalDoc (strategicMerge b (marshalDoc o))) = fld.get (unmarshalDoc b) := by
  cases fld with
  | scalar f =>
    have hf : f.get o = "" := by
      by_cases hf : f.get o = ""
      · exact hf
      · simp [PodField.get, hf] at h
    simp only [PodField.get, ScalarField.get_merge, hf, if_true]
  | label key =>
    simp only [PodField.get] at h ⊢
    cases hl : o.Labels with
    | nil => simp [unmarshalDoc, strategicMerge, marshalDoc, omitEmptyList, mergeLabels, hl]
    | cons x xs =>
      rw [hl] at h
      simp only [unmarshalDoc, strategicMerge, marshalDoc, omitEmptyList, mergeLabels, hl,
        Option.getD_some]
      exact lookup_foldl_setLabel_none key (x :: xs) h _

theorem podField_get_merge_set (fld : PodField) (b : TemplateDoc) (o : PodTemplateSpec)
    (v : String) (hnodup : (o.Labels.map Prod.fst).Nodup) (h : fld.get o = some v) :
    fld.get (unmarshalDoc (strategicMerge b (marshalDoc o))) = some v := by
  cases fld with
  | scalar f =>
    by_cases hf : f.get o = ""
    · simp [PodField.get, hf] at h
    · simp only [PodField.get, hf, if_false] at h
      simp only [PodField.get, ScalarField.get_merge, hf, if_false]
      exact h
  | label key =>
    simp only [PodField.get] at h ⊢
    cases hl : o.Labels with
    | nil => rw [hl] at h; simp at h
    | cons x xs =>
      rw [hl] at h hnodup
      simp only [unmarshalDoc, strategicMerge, marshalDoc, omitEmptyList, mergeLabels, hl,
        Option.getD_some]
      exact lookup_foldl_setLabel_some key v (x :: xs) hnodup h _

theorem podField_get_clearProtected (fld : PodField) (d : PodTemplateSpec) :
    fld.get (clearProtected d) = fld.get d := by
  cases fld with
  | scalar f => cases f <;> rfl
  | label key => rfl

theorem podField_get_fold_unset (fld : PodField) (post : List PodTemplateSpec)
    (h : ∀ o ∈ post, fld.get o = none) :
    ∀ b : TemplateDoc,
      fld.get (unmarshalDoc (post.foldl (fun b o => strategicMerge b (marshalDoc o)) b))
        = fld.get (unmarshalDoc b) := by
  induction post with
  | nil => intro b; rfl
  | cons o rest ih =>
    intro b
    rw [List.foldl_cons, ih (fun x hx => h x (List.mem_cons_of_mem _ hx)),
      podField_get_merge_unset fld b o (h o (List.mem_cons_self _ _))]

theorem podField_get_fold_last_set (fld : PodField) (pre post : List PodTemplateSpec)
    (o : PodTemplateSpec) (v : String) (hnodup : (o.Labels.map Prod.fst).Nodup)
    (hset : fld.get o = some v) (h : ∀ x ∈ post, fld.get x = none) (b : TemplateDoc) :
    fld.get (unmarshalDoc ((pre ++ o :: post).foldl
        (fun b o => strategicMerge b (marshalDoc o)) b)) = some v := by
  rw [List.foldl_append, List.foldl_cons, podField_get_fold_unset fld post h,
    podField_get_merge_set fld _ o v hnodup hset]

theorem podField_get_restore_containers (fld : PodField) (t : PodTemplateSpec)
    (containers : List Container) :
    fld.get { t with Spec := { t.Spec with Containers := containers } } = fld.get t := by
  cases fld with
  | scalar f => cases f <;> rfl
  | label key => rfl

/-- C16. With the codec and strategic merge as the specification describes them: when the
override of a component sets a pod-level field (a scalar field or a label key) and no
override collected after it (later components, workspace) mentions that field, the pod
template returned by `ApplyPodOverrides` carries the value that override set. Hence, when
the component overrides each set a field of their own, the result carries all their
values. -/
theorem ApplyPodOverrides_distinct_fields (c : Constants)
    (workspace : DevWorkspaceWithConfig RawJSON) (deployment : Deployment) (fld : PodField)
    (v : String) (raw : RawJSON) (B : PodTemplateSpec)
    (pre : List (Component RawJSON)) (comp : Component RawJSON)
    (post : List (Component RawJSON))
    (hB : specCodec.Decode raw = .ok B) (hkeys : (B.Labels.map Prod.fst).Nodup)
    (hset : fld.get B = some v)
    (hsplit : workspace.Components = pre ++ comp :: post)
    (hpre : ∀ p ∈ pre, overrideDecodes c specCodec p.Attributes = true)
    (hl : comp.Attributes.lookup c.PodOverridesAttribute = some raw)
    (hpost : ∀ p ∈ post, ∀ r, p.Attributes.lookup c.PodOverridesAttribute = some r →
      ∃ d, specCodec.Decode r = .ok d ∧ fld.get d = none)
    (hws : ∀ r, workspace.Attributes.lookup c.PodOverridesAttribute = some r →
      ∃ d, specCodec.Decode r = .ok d ∧ fld.get d = none) :
    ∃ patched, ApplyPodOverrides c specCodec workspace deployment = (some patched, none) ∧
      fld.get patched.Template = some v := by
  have hsetc : fld.get (clearProtected B) = some v := by
    rw [podField_get_clearProtected]; exact hset
  have hkeysc : ((clearProtected B).Labels.map Prod.fst).Nodup := hkeys
  obtain ⟨fpre, hfpre, _⟩ := getPodOverridesLoop_ok c specCodec pre hpre []
  obtain ⟨fpost, hfpost, hunset⟩ := getPodOverridesLoop_all c specCodec
    (fun d => fld.get d = none) post hpost ([] ++ fpre ++ [clearProtected B])
  have hloop : getPodOverridesLoop c specCodec workspace.Components []
      = (fpre ++ clearProtected B :: fpost, none) := by
    rw [hsplit, getPodOverridesLoop_append_ok c specCodec pre (comp :: post) [] _ hfpre,
      getPodOverridesLoop_step_ok c specCodec comp post _ raw B hl hB, hfpost]
    simp
  have hpostunset : ∀ x ∈ fpost, fld.get x = none := by
    intro x hx
    obtain ⟨d, hd, rfl⟩ := hunset x hx
    rw [podField_get_clearProtected]; exact hd
  cases hlw : workspace.Attributes.lookup c.PodOverridesAttribute with
  | none =>
    have hget : getPodOverrides c specCodec workspace
        = (fpre ++ clearProtected B :: fpost, none) := by
      unfold getPodOverrides
      simp [hloop, Attributes.Exists, hlw]
    refine ⟨_, ApplyPodOverrides_specCodec_template c workspace deployment _ hget, ?_⟩
    simp only []
    rw [podField_get_restore_containers,
      podField_get_fold_last_set fld fpre fpost _ v hkeysc hsetc hpostunset]
  | some r =>
    obtain ⟨d, hd, hdunset⟩ := hws r hlw
    have hget : getPodOverrides c specCodec workspace
        = (fpre ++ clearProtected B :: (fpost ++ [clearProtected d]), none) := by
      unfold getPodOverrides
      simp [hloop, Attributes.Exists, Attributes.GetInto, hlw, hd]
    refine ⟨_, ApplyPodOverrides_specCodec_template c workspace deployment _ hget, ?_⟩
    simp only []
    rw [podField_get_restore_containers,
      podField_get_fold_last_set fld fpre (fpost ++ [clearProtected d]) _ v hkeysc hsetc ?_]
    intro x hx
    rcases List.mem_append.mp hx with h1 | h1
    · exact hpostunset x h1
    · simp at h1; subst h1
      rw [podField_get_clearProtected]; exact hdunset

theorem ApplyPodOverrides_distinct_fields_witness :
    ((ApplyPodOverrides sampleConstants specCodec distinctFieldsWorkspace fullDeployment).1.map
      (fun p => (p.Template.Spec.RestartPolicy, p.Template.Spec.ServiceAccountName,
        p.Template.Labels.lookup "team", p.Template.Labels.lookup "app"))
      = some ("Never", "builder", some "ide", some "workspace")) ∧
    (∃ patched,
      ApplyPodOverrides sampleConstants specCodec distinctFieldsWorkspace fullDeployment
        = (some patched, none) ∧
      (PodField.scalar .restartPolicy).get patched.Template = some "Never") ∧
    (∃ patched,
      ApplyPodOverrides sampleConstants specCodec distinctFieldsWorkspace fullDeployment
        = (some patched, none) ∧
      (PodField.label "team").get patched.Template = some "ide") :=
  ⟨by decide,
   ApplyPodOverrides_distinct_fields sampleConstants distinctFieldsWorkspace fullDeployment
      (.scalar .restartPolicy) "Never"
      (.document { emptyDoc with restartPolicy := some "Never" })
      (unmarshalDoc { emptyDoc with restartPolicy := some "Never" })
      []
      { Name := "first"
        Attributes :=
          [("pod-overrides", .document { emptyDoc with restartPolicy := some "Never" })] }
      [{ Name := "second"
         Attributes :=
           [("pod-overrides",
             .document { emptyDoc with serviceAccountName := some "builder" })] },
       { Name := "third"
         Attributes :=
           [("pod-overrides",
             .document { emptyDoc with labels := some [("team", "ide")] })] }]
      rfl (by decide) (by decide) rfl (by intro p hp; cases hp) (by decide)
      (by
        intro p hp r hr
        simp only [List.mem_cons, List.mem_singleton, List.not_mem_nil, or_false] at hp
        rcases hp with rfl | rfl
        · have h1 : some (RawJSON.document
              { emptyDoc with serviceAccountName := some "builder" }) = some r := hr
          have h2 := Option.some.inj h1
          subst h2
          exact ⟨_, rfl, by decide⟩
        · have h1 : some (RawJSON.document
              { emptyDoc with labels := some [("team", "ide")] }) = some r := hr
          have h2 := Option.some.inj h1
          subst h2
          exact ⟨_, rfl, by decide⟩)
      (by intro r hr; cases hr),
   ApplyPodOverrides_distinct_fields sampleConstants distinctFieldsWorkspace fullDeployment
      (.label "team") "ide"
      (.document { emptyDoc with labels := some [("team", "ide")] })
      (unmarshalDoc { emptyDoc with labels := some [("team", "ide")] })
      [{ Name := "first"
         Attributes :=
           [("pod-overrides", .document { emptyDoc with restartPolicy := some "Never" })] },
       { Name := "second"
         Attributes :=
           [("pod-overrides",
             .document { emptyDoc with serviceAccountName := some "builder" })] }]
      { Name := "third"
        Attributes :=
          [("pod-overrides", .document { emptyDoc with labels := some [("team", "ide")] })] }
      []
      rfl (by decide) (by decide) rfl (by decide) (by decide)
      (by intro p hp; cases hp)
      (by intro r hr; cases hr)⟩

end DWO
